import Mathlib

/-!
Verification of the Tracker.py email-open tracking service (src/app.py).

The embedding models, from the source:
* Python string helpers used by the code (str.strip, str.lower, int()),
* the spreadsheet as a list of rows of strings, with the gspread
  operations the code uses (row_values(1), append_row, update_cell,
  get_all_values),
* the function update_sheet (header creation and healing, the linear
  email scan, in-place update, and row append),
* later sections add the token decoder and the track endpoint.
-/

namespace Tracker

/-- Python str.strip() whitespace set (ASCII part). -/
def isPySpace (c : Char) : Bool :=
  c = ' ' || c = '\t' || c = '\n' || c = '\x0d' || c = '\x0b' || c = '\x0c'

/-- Python s.strip(): drop leading and trailing whitespace. -/
def pyStrip (s : String) : String :=
  String.mk (((s.data.dropWhile isPySpace).reverse.dropWhile isPySpace).reverse)

/-- Python s.lower() (ASCII case folding, which covers the data in play). -/
def pyLower (s : String) : String :=
  String.mk (s.data.map Char.toLower)

def digitVal (c : Char) : Option Nat :=
  if '0' ≤ c && c ≤ '9' then some (c.toNat - 48) else none

def digitsToNat : List Char → Option Nat
  | [] => none
  | cs => cs.foldl (fun acc c => match acc, digitVal c with
      | some a, some d => some (a * 10 + d)
      | _, _ => none) (some 0)

/-- Python int(s) on a string: optional surrounding whitespace, optional
sign, then decimal digits; anything else raises ValueError (modelled as
none). -/
def pyInt (s : String) : Option Int :=
  let t := ((s.data.dropWhile isPySpace).reverse.dropWhile isPySpace).reverse
  match t with
  | '+' :: ds => (digitsToNat ds).map (fun n => (n : Int))
  | '-' :: ds => (digitsToNat ds).map (fun n => -(n : Int))
  | ds => (digitsToNat ds).map (fun n => (n : Int))

/-! ## Sheet model (gspread worksheet as a row-major grid of strings) -/

abbrev Row := List String
abbrev Sheet := List Row

/-- gspread row_values trims trailing empty cells. -/
def dropTrailingEmpty (r : Row) : Row :=
  (r.reverse.dropWhile (fun c => c = "")).reverse

/-- sheet.row_values(1). -/
def rowValues1 (s : Sheet) : Row :=
  dropTrailingEmpty (s.headD [])

/-- sheet.append_row(r). -/
def appendRow (s : Sheet) (r : Row) : Sheet := s ++ [r]

/-- Pad a row with empty cells up to width n. -/
def padTo (r : Row) (n : Nat) : Row :=
  r ++ List.replicate (n - r.length) ""

/-- Write value v into 1-indexed cell c of a row, growing it as needed. -/
def setCell1 (r : Row) (c : Nat) (v : String) : Row :=
  (padTo r c).set (c - 1) v

/-- sheet.update_cell(rn, c, v), 1-indexed, growing the grid as needed. -/
def updateCell (s : Sheet) (rn c : Nat) (v : String) : Sheet :=
  let s2 := s ++ List.replicate (rn - s.length) ([] : Row)
  s2.set (rn - 1) (setCell1 (s2.getD (rn - 1) []) c v)

def matWidth (s : Sheet) : Nat :=
  s.foldr (fun r acc => max r.length acc) 0

/-- sheet.get_all_values(): the rectangular grid, rows padded with "". -/
def getAllValues (s : Sheet) : Sheet :=
  s.map (fun r => padTo r (matWidth s))

/-! ## update_sheet -/

def DEFAULT_HEADERS : List String :=
  ["Open_timestamp", "Open_status", "Leads_email", "Open_count",
   "Last_open_timestamp", "From", "Subject", "Campaign_name",
   "Timezone", "Start_Date", "Template"]

def REQUIRED_COLS : List String :=
  ["Open_status", "Open_count", "Last_open_timestamp", "From", "Subject",
   "Campaign_name", "Timezone", "Start_Date", "Template"]

/-- Index of the last occurrence of h in hs: the col_map dict
comprehension keeps the last index for a repeated header name. -/
def lastIdx : List String → String → Option Nat
  | [], _ => none
  | x :: xs, h =>
    match lastIdx xs h with
    | some i => some (i + 1)
    | none => if x = h then some 0 else none

/-- col_map lookup; a missing column name raises KeyError. -/
def keyIdx (hs : List String) (c : String) : Except String Nat :=
  match lastIdx hs c with
  | some i => .ok i
  | none => .error ("KeyError: " ++ c)

/-- Header-healing step of update_sheet on the header list alone. -/
def healHeaders (hs : List String) : List String :=
  REQUIRED_COLS.foldl (fun a c => if a.contains c then a else a ++ [c]) hs

/-- One iteration of the healing loop: when the column is absent,
append it to the headers list and write it with
update_cell(1, len(headers), col). -/
def healStep (p : List String × Sheet) (c : String) : List String × Sheet :=
  if p.1.contains c then p
  else (p.1 ++ [c], updateCell p.2 1 (p.1.length + 1) c)

/-- Steps 1-3 of update_sheet: ensure a header row exists (writing the
default set when row 1 is empty), then append any missing required
column at the end, mirroring each append with update_cell(1, len, col). -/
def ensureHeader (s : Sheet) : List String × Sheet :=
  REQUIRED_COLS.foldl healStep
    (if rowValues1 s = [] then (DEFAULT_HEADERS, appendRow s DEFAULT_HEADERS)
     else (rowValues1 s, s))

/-- row[col_map["Leads_email"]].strip().lower() == email.lower(). -/
def matchesEmail (email : String) (ie : Nat) (row : Row) : Bool :=
  pyLower (pyStrip (row.getD ie "")) = pyLower email

/-- Step 5 scan: first data row whose email cell matches, with its
0-based body index; the col_map["Leads_email"] lookup happens per
iteration, so an empty body never raises. -/
def findMatch (hs : List String) (email : String) :
    List Row → Nat → Except String (Option (Nat × Row))
  | [], _ => .ok none
  | r :: rs, i =>
    match keyIdx hs "Leads_email" with
    | .error e => .error e
    | .ok ie =>
      if matchesEmail email ie r then .ok (some (i, r))
      else findMatch hs email rs (i + 1)

/-- Python truthiness of an optional string argument. -/
def truthy : Option String → Bool
  | none => false
  | some t => t ≠ ""

/-- A conditional metadata update: look up the column and write only
when the field is truthy. -/
def condUpdate (s : Sheet) (rn : Nat) (hs : List String) (c : String)
    (v : Option String) : Except String Sheet :=
  match v with
  | some t =>
    if t = "" then .ok s
    else
      match keyIdx hs c with
      | .error e => .error e
      | .ok i => .ok (updateCell s rn (i + 1) t)
  | none => .ok s

/-- The string fed to int(): Python "row_cell or \x22\x30\x22". -/
def countArg (cell : String) : String := if cell = "" then "0" else cell

/-- Found-row branch of update_sheet (body index i means sheet row i+2). -/
def bindE (e : Except String Sheet) (f : Sheet → Except String Sheet) :
    Except String Sheet :=
  match e with
  | .error m => .error m
  | .ok s => f s

def updateFound (s : Sheet) (hs : List String) (i : Nat) (row : Row)
    (sender timestamp : String)
    (sheet_name subject timezone start_date template : Option String) :
    Except String Sheet :=
  match keyIdx hs "Open_count" with
  | .error e => .error e
  | .ok ic =>
    match pyInt (countArg (row.getD ic "")) with
    | none => .error "ValueError: invalid literal for int"
    | some n =>
      let s := updateCell s (i + 2) (ic + 1) (toString (n + 1))
      match keyIdx hs "Open_timestamp" with
      | .error e => .error e
      | .ok it =>
        let s := updateCell s (i + 2) (it + 1) timestamp
        match keyIdx hs "Open_status" with
        | .error e => .error e
        | .ok ist =>
          let s := updateCell s (i + 2) (ist + 1) "OPENED"
          match keyIdx hs "From" with
          | .error e => .error e
          | .ok ifr =>
            let s := updateCell s (i + 2) (ifr + 1) sender
            bindE (condUpdate s (i + 2) hs "Subject" subject) (fun s =>
              bindE (condUpdate s (i + 2) hs "Campaign_name" sheet_name) (fun s =>
                bindE (condUpdate s (i + 2) hs "Timezone" timezone) (fun s =>
                  bindE (condUpdate s (i + 2) hs "Start_Date" start_date) (fun s =>
                    bindE (condUpdate s (i + 2) hs "Template" template) (fun s =>
                      .ok s)))))

/-- Step 6: the freshly populated row for a new email. -/
def bindR (e : Except String Nat) (f : Nat → Except String Row) :
    Except String Row :=
  match e with
  | .error m => .error m
  | .ok i => f i

def newRowFor (hs : List String) (email sender timestamp : String)
    (sheet_name subject timezone start_date template : Option String) :
    Except String Row :=
  bindR (keyIdx hs "Open_timestamp") (fun i1 =>
  bindR (keyIdx hs "Open_status") (fun i2 =>
  bindR (keyIdx hs "Leads_email") (fun i3 =>
  bindR (keyIdx hs "Open_count") (fun i4 =>
  bindR (keyIdx hs "Last_open_timestamp") (fun i5 =>
  bindR (keyIdx hs "From") (fun i6 =>
  bindR (keyIdx hs "Subject") (fun i7 =>
  bindR (keyIdx hs "Campaign_name") (fun i8 =>
  bindR (keyIdx hs "Timezone") (fun i9 =>
  bindR (keyIdx hs "Start_Date") (fun i10 =>
  bindR (keyIdx hs "Template") (fun i11 =>
  .ok ((((((((((((List.replicate hs.length "").set i1 timestamp).set i2
    "OPENED").set i3 email).set i4 "1").set i5 timestamp).set i6
    sender).set i7 (subject.getD "")).set i8 (sheet_name.getD "")).set i9
    (timezone.getD "")).set i10 (start_date.getD "")).set i11
    (template.getD "")))))))))))))

/-- update_sheet(sheet, email, sender, timestamp, ...). An uncaught
Python exception (KeyError / ValueError) is the error case. -/
def updateSheet (s0 : Sheet) (email sender timestamp : String)
    (sheet_name subject timezone start_date template : Option String) :
    Except String Sheet :=
  match findMatch (ensureHeader s0).1 email
      ((getAllValues (ensureHeader s0).2).drop 1) 0 with
  | .error e => .error e
  | .ok (some (i, row)) =>
    updateFound (ensureHeader s0).2 (ensureHeader s0).1 i row sender timestamp
      sheet_name subject timezone start_date template
  | .ok none =>
    match newRowFor (ensureHeader s0).1 email sender timestamp sheet_name
        subject timezone start_date template with
    | .error e => .error e
    | .ok nr => .ok (appendRow (ensureHeader s0).2 nr)

/-- Read a cell of a sheet (0-indexed), defaulting to the empty string,
which coincides with what the padded get_all_values grid returns. -/
def cellGet (s : Sheet) (r c : Nat) : String :=
  (s.getD r []).getD c ""

end Tracker

namespace Tracker

/-! ## Supporting lemmas -/

theorem getD_eq (l : List String) (i : Nat) : l.getD i "" = (l[i]?).getD "" :=
  List.getD_eq_getElem?_getD l i ""

theorem getD_row_eq (l : List Row) (i : Nat) : l.getD i [] = (l[i]?).getD [] :=
  List.getD_eq_getElem?_getD l i []

theorem getD_set_self {l : List String} {i : Nat} {v : String} (h : i < l.length) :
    (l.set i v).getD i "" = v := by
  rw [getD_eq, List.getElem?_set_self h]
  rfl

theorem getD_set_ne {l : List String} {i j : Nat} {v : String} (h : i ≠ j) :
    (l.set i v).getD j "" = l.getD j "" := by
  rw [getD_eq, List.getElem?_set_ne h, ← getD_eq]

theorem getD_append_replicate {α : Type} (l : List α) (k i : Nat) (d : α) :
    (l ++ List.replicate k d).getD i d = l.getD i d := by
  rw [List.getD_eq_getElem?_getD, List.getD_eq_getElem?_getD]
  rcases Nat.lt_or_ge i l.length with h | h
  · rw [List.getElem?_append_left h]
  · rw [List.getElem?_append_right h, List.getElem?_eq_none h, List.getElem?_replicate]
    by_cases h2 : i - l.length < k <;> simp [h2]

theorem padTo_getD (r : Row) (n i : Nat) : (padTo r n).getD i "" = r.getD i "" :=
  getD_append_replicate r (n - r.length) i ""

theorem lastIdx_getD {hs : List String} {c : String} {i : Nat}
    (h : lastIdx hs c = some i) : hs.getD i "" = c := by
  induction hs generalizing i with
  | nil => simp [lastIdx] at h
  | cons x xs ih =>
    unfold lastIdx at h
    cases hx : lastIdx xs c with
    | some j =>
      rw [hx] at h
      cases h
      simpa using ih hx
    | none =>
      rw [hx] at h
      by_cases hxc : x = c
      · rw [if_pos hxc] at h
        cases h
        simpa using hxc
      · simp [hxc] at h

theorem lastIdx_lt {hs : List String} {c : String} {i : Nat}
    (h : lastIdx hs c = some i) : i < hs.length := by
  induction hs generalizing i with
  | nil => simp [lastIdx] at h
  | cons x xs ih =>
    unfold lastIdx at h
    cases hx : lastIdx xs c with
    | some j =>
      rw [hx] at h
      cases h
      have := ih hx
      simp only [List.length_cons]
      omega
    | none =>
      rw [hx] at h
      by_cases hxc : x = c
      · rw [if_pos hxc] at h
        cases h
        simp
      · simp [hxc] at h

theorem lastIdx_isSome_of_mem {hs : List String} {c : String} (h : c ∈ hs) :
    ∃ i, lastIdx hs c = some i := by
  induction hs with
  | nil => simp at h
  | cons x xs ih =>
    unfold lastIdx
    cases hx : lastIdx xs c with
    | some j => exact ⟨j + 1, rfl⟩
    | none =>
      rcases List.mem_cons.1 h with h1 | h1
      · exact ⟨0, by simp [h1.symm]⟩
      · rcases ih h1 with ⟨i, hi⟩
        rw [hi] at hx
        cases hx

theorem lastIdx_none_of_not_mem {hs : List String} {c : String} (h : c ∉ hs) :
    lastIdx hs c = none := by
  induction hs with
  | nil => rfl
  | cons x xs ih =>
    unfold lastIdx
    rw [ih (fun hm => h (List.mem_cons_of_mem _ hm))]
    rw [if_neg (fun hh => h (by simp [hh]))]

theorem keyIdx_ok_of_mem {hs : List String} {c : String} (h : c ∈ hs) :
    ∃ i, keyIdx hs c = .ok i ∧ hs.getD i "" = c ∧ i < hs.length := by
  rcases lastIdx_isSome_of_mem h with ⟨i, hi⟩
  exact ⟨i, by simp [keyIdx, hi], lastIdx_getD hi, lastIdx_lt hi⟩

theorem keyIdx_ne {hs : List String} {a b : String} {i j : Nat}
    (ha : keyIdx hs a = .ok i) (hb : keyIdx hs b = .ok j) (hab : a ≠ b) : i ≠ j := by
  unfold keyIdx at ha hb
  cases hia : lastIdx hs a with
  | none => rw [hia] at ha; cases ha
  | some i2 =>
    rw [hia] at ha
    cases hjb : lastIdx hs b with
    | none => rw [hjb] at hb; cases hb
    | some j2 =>
      rw [hjb] at hb
      cases ha; cases hb
      intro hij
      apply hab
      rw [← lastIdx_getD hia, ← lastIdx_getD hjb, hij]

theorem getD_row_append_replicate (s : Sheet) (k i : Nat) :
    (s ++ List.replicate k ([] : Row)).getD i [] = s.getD i [] :=
  getD_append_replicate s k i []

theorem padTo_length (r : Row) (n : Nat) : (padTo r n).length = max r.length n := by
  unfold padTo
  simp only [List.length_append, List.length_replicate]
  omega

theorem cellGet_updateCell (s : Sheet) (r c r2 c2 : Nat) (v : String) :
    cellGet (updateCell s (r + 1) (c + 1) v) r2 c2 =
      if r2 = r ∧ c2 = c then v else cellGet s r2 c2 := by
  unfold cellGet updateCell setCell1
  simp only [Nat.add_sub_cancel]
  have hgs2 : ∀ r3, (s ++ List.replicate (r + 1 - s.length) ([] : Row)).getD r3 []
      = s.getD r3 [] := fun r3 => getD_row_append_replicate s _ r3
  have hlen : r < (s ++ List.replicate (r + 1 - s.length) ([] : Row)).length := by
    simp only [List.length_append, List.length_replicate]
    omega
  by_cases hr : r2 = r
  · subst hr
    rw [getD_row_eq, List.getElem?_set_self hlen, Option.getD_some, hgs2]
    by_cases hc : c2 = c
    · subst hc
      have hcl : c2 < (padTo (s.getD r2 []) (c2 + 1)).length := by
        rw [padTo_length]
        omega
      rw [getD_set_self hcl]
      simp
    · rw [getD_set_ne (fun h => hc h.symm), padTo_getD]
      simp [hc]
  · rw [getD_row_eq, List.getElem?_set_ne (fun h => hr h.symm), ← getD_row_eq, hgs2]
    simp [hr]

theorem dropWhile_replicate_append (k : Nat) (l : List String) :
    List.dropWhile (fun c => c = "") (List.replicate k "" ++ l) =
      List.dropWhile (fun c => c = "") l := by
  induction k with
  | zero => simp
  | succ n ih => simp [List.replicate_succ, ih]

theorem dte_append (h : Row) (v : String) (k : Nat) (hv : v ≠ "") :
    dropTrailingEmpty (h ++ v :: List.replicate k "") = h ++ [v] := by
  unfold dropTrailingEmpty
  rw [List.reverse_append, List.reverse_cons, List.reverse_replicate,
    List.append_assoc, dropWhile_replicate_append]
  simp [List.dropWhile_cons, hv]

theorem dte_exists_replicate {r h : Row} (hd : dropTrailingEmpty r = h) :
    ∃ k, r = h ++ List.replicate k "" := by
  unfold dropTrailingEmpty at hd
  have htk : ∀ x ∈ List.takeWhile (fun c => c = "") r.reverse, x = "" := by
    intro x hx
    simpa using List.mem_takeWhile_imp hx
  refine ⟨(List.takeWhile (fun c => c = "") r.reverse).length, ?_⟩
  have hr : r.reverse = List.takeWhile (fun c => c = "") r.reverse ++
      List.dropWhile (fun c => c = "") r.reverse :=
    (List.takeWhile_append_dropWhile (p := fun c => c = "") (l := r.reverse)).symm
  have hstep : r = (List.dropWhile (fun c => c = "") r.reverse).reverse ++
      (List.takeWhile (fun c => c = "") r.reverse).reverse := by
    conv_lhs => rw [← List.reverse_reverse r, hr]
    rw [List.reverse_append]
  conv_lhs => rw [hstep]
  rw [hd]
  congr 1
  have := List.eq_replicate_of_mem (a := "")
    (l := (List.takeWhile (fun c => c = "") r.reverse).reverse)
    (fun b hb => htk b (by simpa using hb))
  simpa using this

theorem contains_iff_mem (l : List String) (a : String) : l.contains a ↔ a ∈ l := by
  simp [List.contains, List.elem_eq_mem]

theorem healStep_pos {p : List String × Sheet} {c : String}
    (h : p.1.contains c) : healStep p c = p := by
  unfold healStep
  rw [if_pos h]

theorem healStep_neg {p : List String × Sheet} {c : String}
    (h : ¬ p.1.contains c) :
    healStep p c = (p.1 ++ [c], updateCell p.2 1 (p.1.length + 1) c) := by
  unfold healStep
  rw [if_neg h]

theorem foldl_heal_fst (L : List String) : ∀ (p : List String × Sheet),
    (L.foldl healStep p).1 =
      L.foldl (fun a c => if a.contains c then a else a ++ [c]) p.1 := by
  induction L with
  | nil => intro p; rfl
  | cons c L ih =>
    intro p
    simp only [List.foldl_cons]
    by_cases h : p.1.contains c
    · rw [healStep_pos h, if_pos h, ih]
    · rw [healStep_neg h, if_neg h, ih]

theorem heal_keeps (L : List String) : ∀ (a : List String) (d : String), d ∈ a →
    d ∈ L.foldl (fun a c => if a.contains c then a else a ++ [c]) a := by
  induction L with
  | nil => intro a d hd; exact hd
  | cons c L ih =>
    intro a d hd
    simp only [List.foldl_cons]
    by_cases h : a.contains c
    · rw [if_pos h]; exact ih a d hd
    · rw [if_neg h]; exact ih _ d (List.mem_append_left _ hd)

theorem heal_adds (L : List String) : ∀ (a : List String) (c : String), c ∈ L →
    c ∈ L.foldl (fun a c => if a.contains c then a else a ++ [c]) a := by
  induction L with
  | nil => intro a c hc; simp at hc
  | cons x L ih =>
    intro a c hc
    simp only [List.foldl_cons]
    rcases List.mem_cons.1 hc with h1 | h1
    · subst h1
      by_cases h : a.contains c
      · rw [if_pos h]; exact heal_keeps L a c ((contains_iff_mem a c).1 h)
      · rw [if_neg h]
        exact heal_keeps L _ c (List.mem_append_right _ (List.mem_singleton.2 rfl))
    · by_cases h : a.contains x
      · rw [if_pos h]; exact ih a c h1
      · rw [if_neg h]; exact ih _ c h1

theorem heal_filter (L : List String) (hN : L.Nodup) : ∀ (a : List String),
    L.foldl (fun a c => if a.contains c then a else a ++ [c]) a =
      a ++ L.filter (fun c => !a.contains c) := by
  induction L with
  | nil => intro a; simp
  | cons c L ih =>
    intro a
    rcases List.nodup_cons.1 hN with ⟨hc, hN2⟩
    simp only [List.foldl_cons, List.filter_cons]
    by_cases h : a.contains c
    · rw [if_pos h]
      simp only [h, Bool.not_true, if_neg (by decide : ¬ (false = true))]
      exact ih hN2 a
    · rw [if_neg h]
      simp only [Bool.not_eq_true] at h
      simp only [h, Bool.not_false, if_pos rfl]
      rw [ih hN2 (a ++ [c]), List.append_assoc, List.singleton_append]
      congr 2
      apply List.filter_congr
      intro d hd
      have hdc : d ≠ c := fun he => hc (he ▸ hd)
      simp [List.contains, List.elem_eq_mem, List.mem_append, hdc]

theorem set_append_right_len {l1 l2 : List String} (n : Nat) (v : String) :
    (l1 ++ l2).set (l1.length + n) v = l1 ++ l2.set n v := by
  induction l1 with
  | nil => simp
  | cons x xs ih =>
    simp only [List.cons_append, List.length_cons]
    rw [show xs.length + 1 + n = (xs.length + n) + 1 by omega, List.set_cons_succ, ih]

theorem rowValues1_updateCell_append {s : Sheet} {hs : Row} {v : String}
    (hne : s ≠ []) (h1 : rowValues1 s = hs) (hv : v ≠ "") :
    rowValues1 (updateCell s 1 (hs.length + 1) v) = hs ++ [v] ∧
    updateCell s 1 (hs.length + 1) v ≠ [] ∧
    (updateCell s 1 (hs.length + 1) v).drop 1 = s.drop 1 ∧
    (updateCell s 1 (hs.length + 1) v).length = s.length := by
  rcases s with _ | ⟨r, t⟩
  · exact absurd rfl hne
  have hu : updateCell (r :: t) 1 (hs.length + 1) v =
      setCell1 r (hs.length + 1) v :: t := by
    unfold updateCell
    simp [List.length_cons, Nat.sub_eq_zero_of_le (Nat.le_add_left 1 t.length)]
  rw [hu]
  have hr : dropTrailingEmpty r = hs := h1
  rcases dte_exists_replicate hr with ⟨k, hk⟩
  have hsc : setCell1 r (hs.length + 1) v = hs ++ v :: List.replicate (max k 1 - 1) "" := by
    unfold setCell1 padTo
    subst hk
    simp only [Nat.add_sub_cancel, List.length_append, List.length_replicate]
    have harep : hs ++ List.replicate k "" ++
        List.replicate (hs.length + 1 - (hs.length + k)) "" =
        hs ++ List.replicate (max k 1) "" := by
      rw [List.append_assoc, List.append_replicate_replicate]
      congr 2
      omega
    rw [harep, show hs.length = hs.length + 0 by rfl, set_append_right_len]
    congr 1
    rcases Nat.eq_zero_or_pos k with h0 | h0
    · subst h0; rfl
    · rw [show max k 1 = (max k 1 - 1) + 1 by omega, List.replicate_succ]
      rfl
  refine ⟨?_, by simp, by simp [List.drop_one], by simp⟩
  show dropTrailingEmpty (setCell1 r (hs.length + 1) v) = hs ++ [v]
  rw [hsc, dte_append _ _ _ hv]

theorem foldl_heal_sheet (L : List String) (hLne : ∀ c ∈ L, c ≠ "") :
    ∀ (hs : List String) (s : Sheet), s ≠ [] → rowValues1 s = hs →
    rowValues1 (L.foldl healStep (hs, s)).2 = (L.foldl healStep (hs, s)).1 ∧
    (L.foldl healStep (hs, s)).2 ≠ [] ∧
    (L.foldl healStep (hs, s)).2.drop 1 = s.drop 1 ∧
    (L.foldl healStep (hs, s)).2.length = s.length := by
  induction L with
  | nil => intro hs s hne h1; exact ⟨h1, hne, rfl, rfl⟩
  | cons c L ih =>
    intro hs s hne h1
    simp only [List.foldl_cons]
    by_cases h : (hs, s).1.contains c
    · rw [healStep_pos h]
      exact ih (fun d hd => hLne d (List.mem_cons_of_mem _ hd)) hs s hne h1
    · rw [healStep_neg h]
      have hv : c ≠ "" := hLne c (List.mem_cons_self _ _)
      obtain ⟨ha, hb, hc2, hd2⟩ := rowValues1_updateCell_append hne h1 hv
      obtain ⟨ra, rb, rc, rd⟩ :=
        ih (fun d hd => hLne d (List.mem_cons_of_mem _ hd)) (hs ++ [c]) _ hb ha
      exact ⟨ra, rb, by rw [rc, hc2], by rw [rd, hd2]⟩

theorem heal_noop (L : List String) : ∀ (a : List String) (s : Sheet),
    (∀ c ∈ L, a.contains c) → L.foldl healStep (a, s) = (a, s) := by
  induction L with
  | nil => intro a s _; rfl
  | cons c L ih =>
    intro a s hp
    simp only [List.foldl_cons]
    rw [healStep_pos (hp c (List.mem_cons_self _ _))]
    exact ih a s (fun d hd => hp d (List.mem_cons_of_mem _ hd))

theorem rowValues1_ne_nil_imp {s : Sheet} {hs : List String}
    (h1 : rowValues1 s = hs) (h0 : hs ≠ []) : s ≠ [] := by
  intro he
  subst he
  exact h0 (by simpa [rowValues1, dropTrailingEmpty] using h1.symm)

theorem ensureHeader_eq_of_ne {s : Sheet} (h : rowValues1 s ≠ []) :
    ensureHeader s = REQUIRED_COLS.foldl healStep (rowValues1 s, s) := by
  unfold ensureHeader
  rw [if_neg h]

theorem ensureHeader_nonempty {s : Sheet} {hs : List String}
    (h1 : rowValues1 s = hs) (h0 : hs ≠ []) :
    (ensureHeader s).1 = healHeaders hs ∧
    rowValues1 (ensureHeader s).2 = (ensureHeader s).1 ∧
    (ensureHeader s).2 ≠ [] ∧
    (ensureHeader s).2.drop 1 = s.drop 1 ∧
    (ensureHeader s).2.length = s.length := by
  have hsne : s ≠ [] := rowValues1_ne_nil_imp h1 h0
  have hstart : ensureHeader s = REQUIRED_COLS.foldl healStep (hs, s) := by
    rw [ensureHeader_eq_of_ne (h1 ▸ h0), h1]
  have hreq : ∀ c ∈ REQUIRED_COLS, c ≠ "" := by decide
  obtain ⟨a, b, c, d⟩ := foldl_heal_sheet REQUIRED_COLS hreq hs s hsne h1
  refine ⟨?_, by rw [hstart]; exact a, by rw [hstart]; exact b,
    by rw [hstart]; exact c, by rw [hstart]; exact d⟩
  rw [hstart, foldl_heal_fst]
  rfl

theorem ensureHeader_fresh {s : Sheet} (h1 : rowValues1 s = []) :
    ensureHeader s = (DEFAULT_HEADERS, appendRow s DEFAULT_HEADERS) := by
  have hstart : ensureHeader s =
      REQUIRED_COLS.foldl healStep (DEFAULT_HEADERS, appendRow s DEFAULT_HEADERS) := by
    unfold ensureHeader
    rw [if_pos h1]
  rw [hstart, heal_noop REQUIRED_COLS DEFAULT_HEADERS _ (by decide)]

theorem ensureHeader_required (s : Sheet) :
    ∀ c ∈ REQUIRED_COLS, c ∈ (ensureHeader s).1 := by
  intro c hc
  by_cases h1 : rowValues1 s = []
  · rw [ensureHeader_fresh h1]
    have hsub : ∀ d ∈ REQUIRED_COLS, d ∈ DEFAULT_HEADERS := by decide
    exact hsub c hc
  · rw [ensureHeader_eq_of_ne h1, foldl_heal_fst]
    exact heal_adds REQUIRED_COLS _ c hc

/-- C3: on a collection whose header row is non-empty, the upsert's
header-healing phase appends exactly the missing required column names
at the end of the header, in order, without reordering the existing
columns; every required column is present afterwards; and running the
healing again on the already-healed sheet changes nothing. -/
theorem c3_header_healing (s : Sheet) (hs : List String)
    (h1 : rowValues1 s = hs) (h0 : hs ≠ []) :
    (ensureHeader s).1 = hs ++ REQUIRED_COLS.filter (fun c => !hs.contains c) ∧
    (∀ c ∈ REQUIRED_COLS, c ∈ (ensureHeader s).1) ∧
    ensureHeader (ensureHeader s).2 = ensureHeader s := by
  obtain ⟨ha, hb, hc, _, _⟩ := ensureHeader_nonempty h1 h0
  have hfilter : (ensureHeader s).1 =
      hs ++ REQUIRED_COLS.filter (fun c => !hs.contains c) := by
    rw [ha]
    exact heal_filter REQUIRED_COLS (by decide) hs
  refine ⟨hfilter, ensureHeader_required s, ?_⟩
  have h1b : rowValues1 (ensureHeader s).2 = (ensureHeader s).1 := hb
  have h0b : (ensureHeader s).1 ≠ [] := by
    rw [hfilter]
    intro he
    exact h0 (List.append_eq_nil.1 he).1
  have hne2 : rowValues1 (ensureHeader s).2 ≠ [] := by
    rw [h1b]
    exact h0b
  have hall : ∀ c ∈ REQUIRED_COLS, (ensureHeader s).1.contains c = true := by
    intro c hcr
    exact (contains_iff_mem (ensureHeader s).1 c).2 (ensureHeader_required s c hcr)
  calc ensureHeader (ensureHeader s).2
      = REQUIRED_COLS.foldl healStep
          (rowValues1 (ensureHeader s).2, (ensureHeader s).2) :=
        ensureHeader_eq_of_ne hne2
    _ = REQUIRED_COLS.foldl healStep ((ensureHeader s).1, (ensureHeader s).2) := by
        rw [h1b]
    _ = ((ensureHeader s).1, (ensureHeader s).2) :=
        heal_noop REQUIRED_COLS (ensureHeader s).1 (ensureHeader s).2 hall
    _ = ensureHeader s := Prod.mk.eta

/-- C3 witness: a concrete header missing one required column gains
exactly that column, and healing again is the identity. -/
theorem c3_header_healing_witness :
    rowValues1 [["Leads_email", "Open_timestamp", "Open_status", "Open_count",
      "Last_open_timestamp", "From", "Subject", "Campaign_name", "Timezone",
      "Start_Date"]] = ["Leads_email", "Open_timestamp", "Open_status",
      "Open_count", "Last_open_timestamp", "From", "Subject", "Campaign_name",
      "Timezone", "Start_Date"] ∧
    (ensureHeader [["Leads_email", "Open_timestamp", "Open_status", "Open_count",
      "Last_open_timestamp", "From", "Subject", "Campaign_name", "Timezone",
      "Start_Date"]]).1 = ["Leads_email", "Open_timestamp", "Open_status",
      "Open_count", "Last_open_timestamp", "From", "Subject", "Campaign_name",
      "Timezone", "Start_Date"] ++ REQUIRED_COLS.filter
        (fun c => !(["Leads_email", "Open_timestamp", "Open_status", "Open_count",
          "Last_open_timestamp", "From", "Subject", "Campaign_name", "Timezone",
          "Start_Date"] : List String).contains c) := by
  refine ⟨by decide, ?_⟩
  exact (c3_header_healing _ _ (by decide) (by decide)).1

/-- C8 counterexample: a header that contains every required column in
lower case is NOT used as-is; the healing loop fails to find any of
them (the col_map lookup is case-sensitive) and appends all nine again,
so column identity is not resolved case-insensitively. -/
theorem c8_counterexample :
    healHeaders (DEFAULT_HEADERS.map pyLower) ≠ DEFAULT_HEADERS.map pyLower ∧
    lastIdx (DEFAULT_HEADERS.map pyLower) "Open_status" = none ∧
    "open_status" ∈ DEFAULT_HEADERS.map pyLower := by
  refine ⟨by decide, by decide, by decide⟩

/-- C8 amended: column identity is resolved by exact (case-sensitive)
name lookup against the current header row, never by fixed position:
the index resolved for a column name is wherever that exact name sits
in the header, and a header already containing every required column
name exactly (in any order) is used as-is by the healing loop. -/
theorem c8_column_lookup (hs : List String) (c : String) (h : c ∈ hs) :
    (∃ i, lastIdx hs c = some i ∧ hs.getD i "" = c) ∧
    ((∀ d ∈ REQUIRED_COLS, d ∈ hs) → healHeaders hs = hs) := by
  constructor
  · rcases lastIdx_isSome_of_mem h with ⟨i, hi⟩
    exact ⟨i, hi, lastIdx_getD hi⟩
  · intro hall
    unfold healHeaders
    rw [heal_filter REQUIRED_COLS (by decide) hs, List.filter_eq_nil_iff.2, List.append_nil]
    intro d hd
    simp [contains_iff_mem hs d, hall d hd]

/-- C8 witness: with the required columns present exactly but in a
different order, the lookup finds each name at its position and healing
appends nothing. -/
theorem c8_column_lookup_witness :
    ("From" ∈ (["Leads_email", "From", "Open_timestamp", "Open_status",
        "Open_count", "Last_open_timestamp", "Subject", "Campaign_name",
        "Timezone", "Start_Date", "Template"] : List String)) ∧
    (∃ i, lastIdx ["Leads_email", "From", "Open_timestamp", "Open_status",
        "Open_count", "Last_open_timestamp", "Subject", "Campaign_name",
        "Timezone", "Start_Date", "Template"] "From" = some i ∧
      (["Leads_email", "From", "Open_timestamp", "Open_status", "Open_count",
        "Last_open_timestamp", "Subject", "Campaign_name", "Timezone",
        "Start_Date", "Template"] : List String).getD i "" = "From") ∧
    healHeaders ["Leads_email", "From", "Open_timestamp", "Open_status",
        "Open_count", "Last_open_timestamp", "Subject", "Campaign_name",
        "Timezone", "Start_Date", "Template"] =
      ["Leads_email", "From", "Open_timestamp", "Open_status", "Open_count",
        "Last_open_timestamp", "Subject", "Campaign_name", "Timezone",
        "Start_Date", "Template"] := by
  have h := c8_column_lookup ["Leads_email", "From", "Open_timestamp",
    "Open_status", "Open_count", "Last_open_timestamp", "Subject",
    "Campaign_name", "Timezone", "Start_Date", "Template"] "From" (by decide)
  exact ⟨by decide, h.1, h.2 (by decide)⟩

theorem findMatch_none {hs : List String} {email : String} {ie : Nat}
    (hie : keyIdx hs "Leads_email" = .ok ie) :
    ∀ (body : List Row) (k : Nat),
    (∀ r ∈ body, matchesEmail email ie r = false) →
    findMatch hs email body k = .ok none := by
  intro body
  induction body with
  | nil => intro k _; rfl
  | cons r rs ih =>
    intro k hall
    unfold findMatch
    have hr : matchesEmail email ie r = false := hall r (List.mem_cons_self _ _)
    simp only [hie, hr, Bool.false_eq_true, if_false]
    exact ih (k + 1) (fun d hd => hall d (List.mem_cons_of_mem _ hd))

theorem findMatch_found {hs : List String} {email : String} {ie : Nat}
    (hie : keyIdx hs "Leads_email" = .ok ie) :
    ∀ (pre : List Row) (r : Row) (post : List Row) (k : Nat),
    (∀ x ∈ pre, matchesEmail email ie x = false) →
    matchesEmail email ie r = true →
    findMatch hs email (pre ++ r :: post) k = .ok (some (k + pre.length, r)) := by
  intro pre
  induction pre with
  | nil =>
    intro r post k _ hr
    rw [List.nil_append]
    unfold findMatch
    simp only [hie]
    rw [if_pos hr]
    simp
  | cons x xs ih =>
    intro r post k hall hr
    rw [List.cons_append]
    unfold findMatch
    have hx : matchesEmail email ie x = false := hall x (List.mem_cons_self _ _)
    simp only [hie, hx, Bool.false_eq_true, if_false]
    rw [ih r post (k + 1) (fun d hd => hall d (List.mem_cons_of_mem _ hd)) hr]
    simp only [List.length_cons]
    rw [show k + 1 + xs.length = k + (xs.length + 1) by omega]

theorem updateCell_length (s : Sheet) (rn c : Nat) (v : String) :
    (updateCell s rn c v).length = max s.length rn := by
  unfold updateCell
  simp only [List.length_set, List.length_append, List.length_replicate]
  omega

theorem cellGet_updateCell2 (s : Sheet) (i c r2 c2 : Nat) (v : String) :
    cellGet (updateCell s (i + 2) (c + 1) v) r2 c2 =
      if r2 = i + 1 ∧ c2 = c then v else cellGet s r2 c2 := by
  have h := cellGet_updateCell s (i + 1) c r2 c2 v
  rw [show i + 1 + 1 = i + 2 from rfl] at h
  exact h

theorem condUpdate_cell {hs : List String} {c : String} {j : Nat}
    (hj : keyIdx hs c = .ok j) (s : Sheet) (i : Nat) (v : Option String) :
    ∃ s2, condUpdate s (i + 2) hs c v = .ok s2 ∧
      (∀ r2 c2, cellGet s2 r2 c2 =
        if truthy v = true ∧ r2 = i + 1 ∧ c2 = j then v.getD ""
        else cellGet s r2 c2) ∧
      (i + 2 ≤ s.length → s2.length = s.length) := by
  match v with
  | none =>
    refine ⟨s, rfl, ?_, fun _ => rfl⟩
    intro r2 c2
    simp [truthy]
  | some t =>
    by_cases ht : t = ""
    · subst ht
      refine ⟨s, by simp [condUpdate], ?_, fun _ => rfl⟩
      intro r2 c2
      simp [truthy]
    · refine ⟨updateCell s (i + 2) (j + 1) t, ?_, ?_, ?_⟩
      · simp only [condUpdate, if_neg ht, hj]
      · intro r2 c2
        rw [cellGet_updateCell2]
        simp [truthy, ht, and_comm]
      · intro hlen
        rw [updateCell_length]
        omega

theorem updateFound_cells (s : Sheet) (i : Nat) (sender timestamp : String)
    (sheet_name subject timezone start_date template : Option String)
    {hs : List String} {row : Row}
    {ic it ist ifr isu ica itz isd itp : Nat} {n : Int}
    (hic : keyIdx hs "Open_count" = .ok ic)
    (hit : keyIdx hs "Open_timestamp" = .ok it)
    (hist : keyIdx hs "Open_status" = .ok ist)
    (hifr : keyIdx hs "From" = .ok ifr)
    (hisu : keyIdx hs "Subject" = .ok isu)
    (hica : keyIdx hs "Campaign_name" = .ok ica)
    (hitz : keyIdx hs "Timezone" = .ok itz)
    (hisd : keyIdx hs "Start_Date" = .ok isd)
    (hitp : keyIdx hs "Template" = .ok itp)
    (hn : pyInt (countArg (row.getD ic "")) = some n) :
    ∃ s2, updateFound s hs i row sender timestamp sheet_name subject timezone
        start_date template = .ok s2 ∧
      (∀ r2 c2, r2 ≠ i + 1 → cellGet s2 r2 c2 = cellGet s r2 c2) ∧
      cellGet s2 (i + 1) ic = toString (n + 1) ∧
      cellGet s2 (i + 1) it = timestamp ∧
      cellGet s2 (i + 1) ist = "OPENED" ∧
      cellGet s2 (i + 1) ifr = sender ∧
      (cellGet s2 (i + 1) isu =
        if truthy subject then subject.getD "" else cellGet s (i + 1) isu) ∧
      (cellGet s2 (i + 1) ica =
        if truthy sheet_name then sheet_name.getD "" else cellGet s (i + 1) ica) ∧
      (cellGet s2 (i + 1) itz =
        if truthy timezone then timezone.getD "" else cellGet s (i + 1) itz) ∧
      (cellGet s2 (i + 1) isd =
        if truthy start_date then start_date.getD "" else cellGet s (i + 1) isd) ∧
      (cellGet s2 (i + 1) itp =
        if truthy template then template.getD "" else cellGet s (i + 1) itp) ∧
      (∀ c2, c2 ≠ ic → c2 ≠ it → c2 ≠ ist → c2 ≠ ifr → c2 ≠ isu → c2 ≠ ica →
        c2 ≠ itz → c2 ≠ isd → c2 ≠ itp →
        cellGet s2 (i + 1) c2 = cellGet s (i + 1) c2) ∧
      (i + 2 ≤ s.length → s2.length = s.length) := by
  have nItIc : it ≠ ic := keyIdx_ne hit hic (by decide)
  have nIstIc : ist ≠ ic := keyIdx_ne hist hic (by decide)
  have nIstIt : ist ≠ it := keyIdx_ne hist hit (by decide)
  have nIfrIc : ifr ≠ ic := keyIdx_ne hifr hic (by decide)
  have nIfrIt : ifr ≠ it := keyIdx_ne hifr hit (by decide)
  have nIfrIst : ifr ≠ ist := keyIdx_ne hifr hist (by decide)
  have nIsuIc : isu ≠ ic := keyIdx_ne hisu hic (by decide)
  have nIsuIt : isu ≠ it := keyIdx_ne hisu hit (by decide)
  have nIsuIst : isu ≠ ist := keyIdx_ne hisu hist (by decide)
  have nIsuIfr : isu ≠ ifr := keyIdx_ne hisu hifr (by decide)
  have nIcaIc : ica ≠ ic := keyIdx_ne hica hic (by decide)
  have nIcaIt : ica ≠ it := keyIdx_ne hica hit (by decide)
  have nIcaIst : ica ≠ ist := keyIdx_ne hica hist (by decide)
  have nIcaIfr : ica ≠ ifr := keyIdx_ne hica hifr (by decide)
  have nIcaIsu : ica ≠ isu := keyIdx_ne hica hisu (by decide)
  have nItzIc : itz ≠ ic := keyIdx_ne hitz hic (by decide)
  have nItzIt : itz ≠ it := keyIdx_ne hitz hit (by decide)
  have nItzIst : itz ≠ ist := keyIdx_ne hitz hist (by decide)
  have nItzIfr : itz ≠ ifr := keyIdx_ne hitz hifr (by decide)
  have nItzIsu : itz ≠ isu := keyIdx_ne hitz hisu (by decide)
  have nItzIca : itz ≠ ica := keyIdx_ne hitz hica (by decide)
  have nIsdIc : isd ≠ ic := keyIdx_ne hisd hic (by decide)
  have nIsdIt : isd ≠ it := keyIdx_ne hisd hit (by decide)
  have nIsdIst : isd ≠ ist := keyIdx_ne hisd hist (by decide)
  have nIsdIfr : isd ≠ ifr := keyIdx_ne hisd hifr (by decide)
  have nIsdIsu : isd ≠ isu := keyIdx_ne hisd hisu (by decide)
  have nIsdIca : isd ≠ ica := keyIdx_ne hisd hica (by decide)
  have nIsdItz : isd ≠ itz := keyIdx_ne hisd hitz (by decide)
  have nItpIc : itp ≠ ic := keyIdx_ne hitp hic (by decide)
  have nItpIt : itp ≠ it := keyIdx_ne hitp hit (by decide)
  have nItpIst : itp ≠ ist := keyIdx_ne hitp hist (by decide)
  have nItpIfr : itp ≠ ifr := keyIdx_ne hitp hifr (by decide)
  have nItpIsu : itp ≠ isu := keyIdx_ne hitp hisu (by decide)
  have nItpIca : itp ≠ ica := keyIdx_ne hitp hica (by decide)
  have nItpItz : itp ≠ itz := keyIdx_ne hitp hitz (by decide)
  have nItpIsd : itp ≠ isd := keyIdx_ne hitp hisd (by decide)
  obtain ⟨sA, hA, hAc, hAl⟩ := condUpdate_cell hisu
    (updateCell (updateCell (updateCell (updateCell s (i + 2) (ic + 1)
      (toString (n + 1))) (i + 2) (it + 1) timestamp) (i + 2) (ist + 1)
      "OPENED") (i + 2) (ifr + 1) sender) i subject
  obtain ⟨sB, hB, hBc, hBl⟩ := condUpdate_cell hica sA i sheet_name
  obtain ⟨sC, hC, hCc, hCl⟩ := condUpdate_cell hitz sB i timezone
  obtain ⟨sD, hD, hDc, hDl⟩ := condUpdate_cell hisd sC i start_date
  obtain ⟨sE, hE, hEc, hEl⟩ := condUpdate_cell hitp sD i template
  refine ⟨sE, ?_, ?_, ?_, ?_, ?_, ?_, ?_, ?_, ?_, ?_, ?_, ?_, ?_⟩
  · simp only [updateFound, hic, hn, hit, hist, hifr, hA, bindE, hB, hC, hD, hE]
  · intro r2 c2 hr2
    simp [hEc, hDc, hCc, hBc, hAc, cellGet_updateCell2, hr2]
  · simp [hEc, hDc, hCc, hBc, hAc, cellGet_updateCell2, Ne.symm nItpIc,
      Ne.symm nIsdIc, Ne.symm nItzIc, Ne.symm nIcaIc, Ne.symm nIsuIc,
      Ne.symm nIfrIc, Ne.symm nIstIc, Ne.symm nItIc]
  · simp [hEc, hDc, hCc, hBc, hAc, cellGet_updateCell2, Ne.symm nItpIt,
      Ne.symm nIsdIt, Ne.symm nItzIt, Ne.symm nIcaIt, Ne.symm nIsuIt,
      Ne.symm nIfrIt, Ne.symm nIstIt]
  · simp [hEc, hDc, hCc, hBc, hAc, cellGet_updateCell2, Ne.symm nItpIst,
      Ne.symm nIsdIst, Ne.symm nItzIst, Ne.symm nIcaIst, Ne.symm nIsuIst,
      Ne.symm nIfrIst]
  · simp [hEc, hDc, hCc, hBc, hAc, cellGet_updateCell2, Ne.symm nItpIfr,
      Ne.symm nIsdIfr, Ne.symm nItzIfr, Ne.symm nIcaIfr, Ne.symm nIsuIfr]
  · by_cases hsv : truthy subject = true
    · simp [hEc, hDc, hCc, hBc, hAc, cellGet_updateCell2, hsv,
        Ne.symm nItpIsu, Ne.symm nIsdIsu, Ne.symm nItzIsu, Ne.symm nIcaIsu]
    · simp only [Bool.not_eq_true] at hsv
      simp [hEc, hDc, hCc, hBc, hAc, cellGet_updateCell2, hsv,
        Ne.symm nItpIsu, Ne.symm nIsdIsu, Ne.symm nItzIsu, Ne.symm nIcaIsu,
        nIsuIc, nIsuIt, nIsuIst, nIsuIfr]
  · by_cases hsv : truthy sheet_name = true
    · simp [hEc, hDc, hCc, hBc, hAc, cellGet_updateCell2, hsv,
        Ne.symm nItpIca, Ne.symm nIsdIca, Ne.symm nItzIca]
    · simp only [Bool.not_eq_true] at hsv
      simp [hEc, hDc, hCc, hBc, hAc, cellGet_updateCell2, hsv,
        Ne.symm nItpIca, Ne.symm nIsdIca, Ne.symm nItzIca, nIcaIc, nIcaIt,
        nIcaIst, nIcaIfr, nIcaIsu]
  · by_cases hsv : truthy timezone = true
    · simp [hEc, hDc, hCc, hBc, hAc, cellGet_updateCell2, hsv,
        Ne.symm nItpItz, Ne.symm nIsdItz]
    · simp only [Bool.not_eq_true] at hsv
      simp [hEc, hDc, hCc, hBc, hAc, cellGet_updateCell2, hsv,
        Ne.symm nItpItz, Ne.symm nIsdItz, nItzIc, nItzIt, nItzIst, nItzIfr,
        nItzIsu, nItzIca]
  · by_cases hsv : truthy start_date = true
    · simp [hEc, hDc, hCc, hBc, hAc, cellGet_updateCell2, hsv, Ne.symm nItpIsd]
    · simp only [Bool.not_eq_true] at hsv
      simp [hEc, hDc, hCc, hBc, hAc, cellGet_updateCell2, hsv,
        Ne.symm nItpIsd, nIsdIc, nIsdIt, nIsdIst, nIsdIfr, nIsdIsu, nIsdIca,
        nIsdItz]
  · by_cases hsv : truthy template = true
    · simp [hEc, hDc, hCc, hBc, hAc, cellGet_updateCell2, hsv]
    · simp only [Bool.not_eq_true] at hsv
      simp [hEc, hDc, hCc, hBc, hAc, cellGet_updateCell2, hsv, nItpIc, nItpIt,
        nItpIst, nItpIfr, nItpIsu, nItpIca, nItpItz, nItpIsd]
  · intro c2 h1 h2 h3 h4 h5 h6 h7 h8 h9
    simp [hEc, hDc, hCc, hBc, hAc, cellGet_updateCell2, h1, h2, h3, h4, h5,
      h6, h7, h8, h9]
  · intro hlen
    have l0 : (updateCell (updateCell (updateCell (updateCell s (i + 2) (ic + 1)
        (toString (n + 1))) (i + 2) (it + 1) timestamp) (i + 2) (ist + 1)
        "OPENED") (i + 2) (ifr + 1) sender).length = s.length := by
      simp only [updateCell_length]
      omega
    have pA := hAl (le_of_le_of_eq hlen l0.symm)
    have pB := hBl (by omega)
    have pC := hCl (by omega)
    have pD := hDl (by omega)
    have pE := hEl (by omega)
    omega

theorem updateSheet_found (s0 : Sheet) (email sender timestamp : String)
    (sn su tz sd tp : Option String) {i : Nat} {row : Row}
    (hfind : findMatch (ensureHeader s0).1 email
      ((getAllValues (ensureHeader s0).2).drop 1) 0 = .ok (some (i, row))) :
    updateSheet s0 email sender timestamp sn su tz sd tp =
      updateFound (ensureHeader s0).2 (ensureHeader s0).1 i row sender
        timestamp sn su tz sd tp := by
  unfold updateSheet
  rw [hfind]

/-- C4 counterexample: with an existing row for bob@x.com whose
Open_count cell holds the non-numeric text "abc", the upsert does not
treat the cell as zero; int() raises ValueError and no row is updated,
refuting the claim at this input. -/
theorem c4_counterexample :
    updateSheet [DEFAULT_HEADERS,
        ["", "", "bob@x.com", "abc", "", "", "", "", "", "", ""]]
      "bob@x.com" "s@x.com" "ts" none none none none none =
      .error "ValueError: invalid literal for int" := by
  rfl

/-- C4 (amended): for an existing row matched by email, when the
open-count cell parses as a Python int (an empty cell is replaced by
"0" first, so it counts as zero), the new open count is that value plus
one; a cell that int() cannot parse (non-numeric text) instead raises
ValueError, so the update fails rather than treating the cell as zero. -/
theorem c4_open_count (s0 : Sheet) (email sender timestamp : String)
    (sn su tz sd tp : Option String) (i ic : Nat) (row : Row)
    (hfind : findMatch (ensureHeader s0).1 email
      ((getAllValues (ensureHeader s0).2).drop 1) 0 = .ok (some (i, row)))
    (hot : "Open_timestamp" ∈ (ensureHeader s0).1)
    (hic : keyIdx (ensureHeader s0).1 "Open_count" = .ok ic) :
    (∀ n : Int, pyInt (countArg (row.getD ic "")) = some n →
      ∃ s2, updateSheet s0 email sender timestamp sn su tz sd tp = .ok s2 ∧
        cellGet s2 (i + 1) ic = toString (n + 1)) ∧
    (pyInt (countArg (row.getD ic "")) = none →
      updateSheet s0 email sender timestamp sn su tz sd tp =
        .error "ValueError: invalid literal for int") := by
  have hreq := ensureHeader_required s0
  obtain ⟨it, hit, _, _⟩ := keyIdx_ok_of_mem hot
  obtain ⟨ist, hist, _, _⟩ := keyIdx_ok_of_mem (hreq "Open_status" (by decide))
  obtain ⟨ifr, hifr, _, _⟩ := keyIdx_ok_of_mem (hreq "From" (by decide))
  obtain ⟨isu, hisu, _, _⟩ := keyIdx_ok_of_mem (hreq "Subject" (by decide))
  obtain ⟨ica, hica, _, _⟩ := keyIdx_ok_of_mem (hreq "Campaign_name" (by decide))
  obtain ⟨itz, hitz, _, _⟩ := keyIdx_ok_of_mem (hreq "Timezone" (by decide))
  obtain ⟨isd, hisd, _, _⟩ := keyIdx_ok_of_mem (hreq "Start_Date" (by decide))
  obtain ⟨itp, hitp, _, _⟩ := keyIdx_ok_of_mem (hreq "Template" (by decide))
  constructor
  · intro n hn
    obtain ⟨s2, hrun, _, hcnt, _⟩ := updateFound_cells (ensureHeader s0).2 i
      sender timestamp sn su tz sd tp hic hit hist hifr hisu hica hitz hisd
      hitp hn
    exact ⟨s2, by
      rw [updateSheet_found s0 email sender timestamp sn su tz sd tp hfind,
        hrun], hcnt⟩
  · intro hn
    rw [updateSheet_found s0 email sender timestamp sn su tz sd tp hfind]
    simp only [updateFound, hic, hn]

/-- C4 witness: a row with count cell "41" is bumped to "42". -/
theorem c4_open_count_witness :
    ∃ s2, updateSheet [DEFAULT_HEADERS,
        ["", "", "bob@x.com", "41", "", "", "", "", "", "", ""]]
      "bob@x.com" "s@x.com" "ts" none none none none none = .ok s2 ∧
      cellGet s2 (0 + 1) 3 = toString ((41 : Int) + 1) :=
  (c4_open_count [DEFAULT_HEADERS,
      ["", "", "bob@x.com", "41", "", "", "", "", "", "", ""]]
    "bob@x.com" "s@x.com" "ts" none none none none none 0 3
    ["", "", "bob@x.com", "41", "", "", "", "", "", "", ""]
    (by rfl) (by decide) (by rfl)).1 41 (by rfl)

/-- C6: when an existing row is found for the input email, the upsert
writes OPENED to the status column, the incremented count to the
open-count column, the timestamp to the Open_timestamp column and the
sender to the From column, and overwrites each metadata column
(Subject, Campaign_name, Timezone, Start_Date, Template) exactly when
the corresponding input field is a non-empty string; an empty or
absent field leaves that cell unchanged, and no other row changes. -/
theorem c6_partial_update (s0 : Sheet) (email sender timestamp : String)
    (sn su tz sd tp : Option String) (i : Nat) (row : Row)
    (ic it ist ifr isu ica itz isd itp : Nat) (n : Int)
    (hfind : findMatch (ensureHeader s0).1 email
      ((getAllValues (ensureHeader s0).2).drop 1) 0 = .ok (some (i, row)))
    (hic : keyIdx (ensureHeader s0).1 "Open_count" = .ok ic)
    (hit : keyIdx (ensureHeader s0).1 "Open_timestamp" = .ok it)
    (hist : keyIdx (ensureHeader s0).1 "Open_status" = .ok ist)
    (hifr : keyIdx (ensureHeader s0).1 "From" = .ok ifr)
    (hisu : keyIdx (ensureHeader s0).1 "Subject" = .ok isu)
    (hica : keyIdx (ensureHeader s0).1 "Campaign_name" = .ok ica)
    (hitz : keyIdx (ensureHeader s0).1 "Timezone" = .ok itz)
    (hisd : keyIdx (ensureHeader s0).1 "Start_Date" = .ok isd)
    (hitp : keyIdx (ensureHeader s0).1 "Template" = .ok itp)
    (hn : pyInt (countArg (row.getD ic "")) = some n) :
    ∃ s2, updateSheet s0 email sender timestamp sn su tz sd tp = .ok s2 ∧
      cellGet s2 (i + 1) ist = "OPENED" ∧
      cellGet s2 (i + 1) ic = toString (n + 1) ∧
      cellGet s2 (i + 1) it = timestamp ∧
      cellGet s2 (i + 1) ifr = sender ∧
      (cellGet s2 (i + 1) isu = if truthy su then su.getD ""
        else cellGet (ensureHeader s0).2 (i + 1) isu) ∧
      (cellGet s2 (i + 1) ica = if truthy sn then sn.getD ""
        else cellGet (ensureHeader s0).2 (i + 1) ica) ∧
      (cellGet s2 (i + 1) itz = if truthy tz then tz.getD ""
        else cellGet (ensureHeader s0).2 (i + 1) itz) ∧
      (cellGet s2 (i + 1) isd = if truthy sd then sd.getD ""
        else cellGet (ensureHeader s0).2 (i + 1) isd) ∧
      (cellGet s2 (i + 1) itp = if truthy tp then tp.getD ""
        else cellGet (ensureHeader s0).2 (i + 1) itp) ∧
      (∀ r2 c2, r2 ≠ i + 1 →
        cellGet s2 r2 c2 = cellGet (ensureHeader s0).2 r2 c2) := by
  obtain ⟨s2, hrun, hother, hcnt, htime, hstat, hfrom, hsu2, hsn2, htz2, hsd2,
    htp2, _, _⟩ :=
    updateFound_cells (ensureHeader s0).2 i sender timestamp sn su tz sd tp
      hic hit hist hifr hisu hica hitz hisd hitp hn
  exact ⟨s2, by
    rw [updateSheet_found s0 email sender timestamp sn su tz sd tp hfind,
      hrun], hstat, hcnt, htime, hfrom,
    hsu2, hsn2, htz2, hsd2, htp2, fun r2 c2 h => hother r2 c2 h⟩

/-- C6 witness: a second open with a new Subject but empty Timezone and
absent Campaign_name overwrites only the Subject cell. -/
theorem c6_partial_update_witness :
    ∃ s2, updateSheet [DEFAULT_HEADERS,
        ["t1", "OPENED", "bob@x.com", "1", "t1", "s@x.com", "Old", "Camp",
         "TZ", "D", "T"]]
      "bob@x.com" "s2@x.com" "t2" none (some "Hi") (some "") none none =
        .ok s2 ∧
      cellGet s2 (0 + 1) 1 = "OPENED" ∧
      cellGet s2 (0 + 1) 3 = toString ((1 : Int) + 1) ∧
      cellGet s2 (0 + 1) 0 = "t2" ∧
      cellGet s2 (0 + 1) 5 = "s2@x.com" ∧
      (cellGet s2 (0 + 1) 6 = if truthy (some "Hi") then
        (some "Hi").getD "" else cellGet (ensureHeader [DEFAULT_HEADERS,
        ["t1", "OPENED", "bob@x.com", "1", "t1", "s@x.com", "Old", "Camp",
         "TZ", "D", "T"]]).2 (0 + 1) 6) ∧
      (cellGet s2 (0 + 1) 7 = if truthy (none : Option String) then
        (none : Option String).getD "" else
        cellGet (ensureHeader [DEFAULT_HEADERS,
        ["t1", "OPENED", "bob@x.com", "1", "t1", "s@x.com", "Old", "Camp",
         "TZ", "D", "T"]]).2 (0 + 1) 7) ∧
      (cellGet s2 (0 + 1) 8 = if truthy (some "") then
        (some "").getD "" else cellGet (ensureHeader [DEFAULT_HEADERS,
        ["t1", "OPENED", "bob@x.com", "1", "t1", "s@x.com", "Old", "Camp",
         "TZ", "D", "T"]]).2 (0 + 1) 8) ∧
      (cellGet s2 (0 + 1) 9 = if truthy (none : Option String) then
        (none : Option String).getD "" else
        cellGet (ensureHeader [DEFAULT_HEADERS,
        ["t1", "OPENED", "bob@x.com", "1", "t1", "s@x.com", "Old", "Camp",
         "TZ", "D", "T"]]).2 (0 + 1) 9) ∧
      (cellGet s2 (0 + 1) 10 = if truthy (none : Option String) then
        (none : Option String).getD "" else
        cellGet (ensureHeader [DEFAULT_HEADERS,
        ["t1", "OPENED", "bob@x.com", "1", "t1", "s@x.com", "Old", "Camp",
         "TZ", "D", "T"]]).2 (0 + 1) 10) ∧
      (∀ r2 c2, r2 ≠ 0 + 1 →
        cellGet s2 r2 c2 = cellGet (ensureHeader [DEFAULT_HEADERS,
        ["t1", "OPENED", "bob@x.com", "1", "t1", "s@x.com", "Old", "Camp",
         "TZ", "D", "T"]]).2 r2 c2) := by
  obtain ⟨s2, h1, h2, h3, h4, h5, h6, h7, h8, h9, h10, h11⟩ :=
    c6_partial_update [DEFAULT_HEADERS,
        ["t1", "OPENED", "bob@x.com", "1", "t1", "s@x.com", "Old", "Camp",
         "TZ", "D", "T"]]
      "bob@x.com" "s2@x.com" "t2" none (some "Hi") (some "") none none 0
      ["t1", "OPENED", "bob@x.com", "1", "t1", "s@x.com", "Old", "Camp",
       "TZ", "D", "T"]
      3 0 1 5 6 7 8 9 10 1
      (by rfl) (by rfl) (by rfl) (by rfl) (by rfl) (by rfl) (by rfl) (by rfl)
      (by rfl) (by rfl) (by rfl)
  exact ⟨s2, h1, h2, h3, h4, h5, h6, h7, h8, h9, h10, h11⟩

theorem keyIdx_lastIdx {hs : List String} {c : String} {i : Nat}
    (h : keyIdx hs c = .ok i) : lastIdx hs c = some i := by
  unfold keyIdx at h
  cases hx : lastIdx hs c with
  | none => rw [hx] at h; cases h
  | some j => rw [hx] at h; cases h; rfl

theorem keyIdx_lt {hs : List String} {c : String} {i : Nat}
    (h : keyIdx hs c = .ok i) : i < hs.length :=
  lastIdx_lt (keyIdx_lastIdx h)

theorem updateSheet_append (s0 : Sheet) (email sender timestamp : String)
    (sn su tz sd tp : Option String) {nr : Row}
    (hfind : findMatch (ensureHeader s0).1 email
      ((getAllValues (ensureHeader s0).2).drop 1) 0 = .ok none)
    (hnew : newRowFor (ensureHeader s0).1 email sender timestamp sn su tz sd
      tp = .ok nr) :
    updateSheet s0 email sender timestamp sn su tz sd tp =
      .ok (appendRow (ensureHeader s0).2 nr) := by
  unfold updateSheet
  rw [hfind]
  simp only [hnew]

theorem newRowFor_cells (email sender timestamp : String)
    (sn su tz sd tp : Option String) {hs : List String}
    {i1 i2 i3 i4 i5 i6 i7 i8 i9 i10 i11 : Nat}
    (h1 : keyIdx hs "Open_timestamp" = .ok i1)
    (h2 : keyIdx hs "Open_status" = .ok i2)
    (h3 : keyIdx hs "Leads_email" = .ok i3)
    (h4 : keyIdx hs "Open_count" = .ok i4)
    (h5 : keyIdx hs "Last_open_timestamp" = .ok i5)
    (h6 : keyIdx hs "From" = .ok i6)
    (h7 : keyIdx hs "Subject" = .ok i7)
    (h8 : keyIdx hs "Campaign_name" = .ok i8)
    (h9 : keyIdx hs "Timezone" = .ok i9)
    (h10 : keyIdx hs "Start_Date" = .ok i10)
    (h11 : keyIdx hs "Template" = .ok i11) :
    ∃ nr, newRowFor hs email sender timestamp sn su tz sd tp = .ok nr ∧
      nr.length = hs.length ∧
      nr.getD i3 "" = email ∧
      nr.getD i4 "" = "1" := by
  have n43 : i4 ≠ i3 := keyIdx_ne h4 h3 (by decide)
  have n53 : i5 ≠ i3 := keyIdx_ne h5 h3 (by decide)
  have n63 : i6 ≠ i3 := keyIdx_ne h6 h3 (by decide)
  have n73 : i7 ≠ i3 := keyIdx_ne h7 h3 (by decide)
  have n83 : i8 ≠ i3 := keyIdx_ne h8 h3 (by decide)
  have n93 : i9 ≠ i3 := keyIdx_ne h9 h3 (by decide)
  have n103 : i10 ≠ i3 := keyIdx_ne h10 h3 (by decide)
  have n113 : i11 ≠ i3 := keyIdx_ne h11 h3 (by decide)
  have n54 : i5 ≠ i4 := keyIdx_ne h5 h4 (by decide)
  have n64 : i6 ≠ i4 := keyIdx_ne h6 h4 (by decide)
  have n74 : i7 ≠ i4 := keyIdx_ne h7 h4 (by decide)
  have n84 : i8 ≠ i4 := keyIdx_ne h8 h4 (by decide)
  have n94 : i9 ≠ i4 := keyIdx_ne h9 h4 (by decide)
  have n104 : i10 ≠ i4 := keyIdx_ne h10 h4 (by decide)
  have n114 : i11 ≠ i4 := keyIdx_ne h11 h4 (by decide)
  have b3 : i3 < hs.length := keyIdx_lt h3
  have b4 : i4 < hs.length := keyIdx_lt h4
  refine ⟨(((((((((((List.replicate hs.length "").set i1 timestamp).set i2
      "OPENED").set i3 email).set i4 "1").set i5 timestamp).set i6
      sender).set i7 (su.getD "")).set i8 (sn.getD "")).set i9
      (tz.getD "")).set i10 (sd.getD "")).set i11 (tp.getD ""), ?_, ?_, ?_, ?_⟩
  · simp only [newRowFor, bindR, h1, h2, h3, h4, h5, h6, h7, h8, h9, h10, h11]
  · simp [List.length_set, List.length_replicate]
  · rw [getD_set_ne n113, getD_set_ne n103, getD_set_ne n93, getD_set_ne n83,
      getD_set_ne n73, getD_set_ne n63, getD_set_ne n53, getD_set_ne n43,
      getD_set_self (by simp [List.length_set, List.length_replicate, b3])]
  · rw [getD_set_ne n114, getD_set_ne n104, getD_set_ne n94, getD_set_ne n84,
      getD_set_ne n74, getD_set_ne n64, getD_set_ne n54,
      getD_set_self (by simp [List.length_set, List.length_replicate, b4])]

theorem rowValues1_append {s : Sheet} (h : s ≠ []) (r : Row) :
    rowValues1 (appendRow s r) = rowValues1 s := by
  rcases s with _ | ⟨x, t⟩
  · exact absurd rfl h
  · rfl

theorem ensureHeader_noop {s : Sheet} {hs : List String}
    (h1 : rowValues1 s = hs) (h0 : hs ≠ [])
    (hall : ∀ c ∈ REQUIRED_COLS, c ∈ hs) :
    ensureHeader s = (hs, s) := by
  rw [ensureHeader_eq_of_ne (h1 ▸ h0), h1, heal_noop REQUIRED_COLS hs s
    (fun c hc => (contains_iff_mem hs c).2 (hall c hc))]

theorem getAllValues_drop1 (s : Sheet) :
    (getAllValues s).drop 1 = (s.drop 1).map (fun r => padTo r (matWidth s)) := by
  unfold getAllValues
  rw [List.map_drop]

theorem matchesEmail_padTo (e : String) (ie w : Nat) (r : Row) :
    matchesEmail e ie (padTo r w) = matchesEmail e ie r := by
  unfold matchesEmail
  rw [padTo_getD]

theorem matchesEmail_row (e : String) (ie : Nat) (s : Sheet) (r : Nat) :
    matchesEmail e ie (s.getD r []) =
      decide (pyLower (pyStrip (cellGet s r ie)) = pyLower e) := rfl

theorem getD_append_last (l : List Row) (x : Row) :
    (l ++ [x]).getD l.length [] = x := by
  rw [List.getD_eq_getElem?_getD, List.getElem?_append_right (le_refl _)]
  simp

theorem getD_append_lt {l : List Row} {r : Nat} (h : r < l.length) (x : Row) :
    (l ++ [x]).getD r [] = l.getD r [] := by
  rw [List.getD_eq_getElem?_getD, List.getElem?_append_left h,
    ← List.getD_eq_getElem?_getD]

theorem getD_mem_drop1 {l : List Row} {r2 : Nat} (h1 : 1 ≤ r2)
    (h2 : r2 < l.length) : l.getD r2 [] ∈ l.drop 1 := by
  have hlt : r2 - 1 < (l.drop 1).length := by
    simp only [List.length_drop]
    omega
  have hq : (l.drop 1)[r2 - 1]? = l[r2]? := by
    rw [List.getElem?_drop]
    congr 1
    omega
  have hmem := List.getElem_mem hlt
  have : (l.drop 1)[r2 - 1] = l.getD r2 [] := by
    rw [List.getD_eq_getElem?_getD, ← hq, List.getElem?_eq_getElem hlt,
      Option.getD_some]
  rw [← this]
  exact hmem

/-- C5 (amended): starting from an empty collection, or one with a
non-empty header containing the Leads_email and Open_timestamp columns,
holding no row matching an email that carries no leading or trailing
whitespace, two sequential opens for that email and a sender leave
exactly one matching row: the first appends a row with count "1", the
second updates that same row in place to count "2" and appends nothing. -/
theorem c5_two_opens (s0 : Sheet) (email sender t1 t2 : String)
    (hemail : email ≠ "") (hstrip : pyStrip email = email)
    (hstart : s0 = [] ∨ rowValues1 s0 ≠ [])
    (hot : "Open_timestamp" ∈ (ensureHeader s0).1)
    (ie : Nat) (hie : keyIdx (ensureHeader s0).1 "Leads_email" = .ok ie)
    (hnomatch : ∀ r ∈ (ensureHeader s0).2.drop 1,
      matchesEmail email ie r = false) :
    ∃ s1 s2 ic,
      updateSheet s0 email sender t1 none none none none none = .ok s1 ∧
      updateSheet s1 email sender t2 none none none none none = .ok s2 ∧
      s1.length = (ensureHeader s0).2.length + 1 ∧
      s2.length = s1.length ∧
      keyIdx (ensureHeader s0).1 "Open_count" = .ok ic ∧
      cellGet s2 (ensureHeader s0).2.length ic = "2" ∧
      (∀ r2, 1 ≤ r2 → r2 < s2.length →
        (matchesEmail email ie (s2.getD r2 []) = true ↔
          r2 = (ensureHeader s0).2.length)) := by
  have hreq := ensureHeader_required s0
  have hE1ne : (ensureHeader s0).1 ≠ [] :=
    List.ne_nil_of_mem (hreq "Open_status" (by decide))
  have hrv : rowValues1 (ensureHeader s0).2 = (ensureHeader s0).1 ∧
      (ensureHeader s0).2 ≠ [] := by
    rcases hstart with h | h
    · subst h
      constructor
      · decide
      · decide
    · obtain ⟨_, hb, hc, _, _⟩ := ensureHeader_nonempty rfl h
      exact ⟨hb, hc⟩
  obtain ⟨hrv1, hE2ne⟩ := hrv
  obtain ⟨it, hit, _, _⟩ := keyIdx_ok_of_mem hot
  obtain ⟨ist, hist, _, _⟩ := keyIdx_ok_of_mem (hreq "Open_status" (by decide))
  obtain ⟨ic, hic, _, _⟩ := keyIdx_ok_of_mem (hreq "Open_count" (by decide))
  obtain ⟨ila, hila, _, _⟩ :=
    keyIdx_ok_of_mem (hreq "Last_open_timestamp" (by decide))
  obtain ⟨ifr, hifr, _, _⟩ := keyIdx_ok_of_mem (hreq "From" (by decide))
  obtain ⟨isu, hisu, _, _⟩ := keyIdx_ok_of_mem (hreq "Subject" (by decide))
  obtain ⟨ica, hica, _, _⟩ := keyIdx_ok_of_mem (hreq "Campaign_name" (by decide))
  obtain ⟨itz, hitz, _, _⟩ := keyIdx_ok_of_mem (hreq "Timezone" (by decide))
  obtain ⟨isd, hisd, _, _⟩ := keyIdx_ok_of_mem (hreq "Start_Date" (by decide))
  obtain ⟨itp, hitp, _, _⟩ := keyIdx_ok_of_mem (hreq "Template" (by decide))
  have hfind1 : findMatch (ensureHeader s0).1 email
      ((getAllValues (ensureHeader s0).2).drop 1) 0 = .ok none := by
    apply findMatch_none hie
    intro r hr
    rw [getAllValues_drop1] at hr
    obtain ⟨r0, hr0, hr0e⟩ := List.mem_map.1 hr
    rw [← hr0e, matchesEmail_padTo]
    exact hnomatch r0 hr0
  obtain ⟨nr, hnr, hnrlen, hnre, hnrc⟩ := newRowFor_cells email sender t1
    none none none none none hit hist hie hic hila hifr hisu hica hitz hisd
    hitp
  have hrun1 := updateSheet_append s0 email sender t1 none none none none
    none hfind1 hnr
  obtain ⟨m, hm⟩ : ∃ m, (ensureHeader s0).2.length = m + 1 := by
    rcases hq : (ensureHeader s0).2 with _ | ⟨x, t⟩
    · exact absurd hq hE2ne
    · exact ⟨t.length, by simp⟩
  have hrv2 : rowValues1 (appendRow (ensureHeader s0).2 nr) =
      (ensureHeader s0).1 := by
    rw [rowValues1_append hE2ne, hrv1]
  have hEH1 : ensureHeader (appendRow (ensureHeader s0).2 nr) =
      ((ensureHeader s0).1, appendRow (ensureHeader s0).2 nr) :=
    ensureHeader_noop hrv2 hE1ne hreq
  have hbody2 : (getAllValues (appendRow (ensureHeader s0).2 nr)).drop 1 =
      ((ensureHeader s0).2.drop 1).map (fun r => padTo r
        (matWidth (appendRow (ensureHeader s0).2 nr))) ++
      [padTo nr (matWidth (appendRow (ensureHeader s0).2 nr))] := by
    rw [getAllValues_drop1]
    unfold appendRow
    rw [List.drop_append_of_le_length (by omega), List.map_append]
    rfl
  have hfind2 : findMatch (ensureHeader s0).1 email
      ((getAllValues (appendRow (ensureHeader s0).2 nr)).drop 1) 0 =
      .ok (some (m, padTo nr
        (matWidth (appendRow (ensureHeader s0).2 nr)))) := by
    rw [hbody2]
    have hpre : ∀ x ∈ ((ensureHeader s0).2.drop 1).map (fun r => padTo r
        (matWidth (appendRow (ensureHeader s0).2 nr))),
        matchesEmail email ie x = false := by
      intro x hx
      obtain ⟨r0, hr0, hr0e⟩ := List.mem_map.1 hx
      rw [← hr0e, matchesEmail_padTo]
      exact hnomatch r0 hr0
    have hmatchnr : matchesEmail email ie (padTo nr
        (matWidth (appendRow (ensureHeader s0).2 nr))) = true := by
      rw [matchesEmail_padTo]
      unfold matchesEmail
      rw [hnre, hstrip]
      simp
    have hres := findMatch_found hie
      (((ensureHeader s0).2.drop 1).map (fun r => padTo r
        (matWidth (appendRow (ensureHeader s0).2 nr))))
      (padTo nr (matWidth (appendRow (ensureHeader s0).2 nr))) [] 0
      hpre hmatchnr
    rw [hres]
    simp only [List.length_map, List.length_drop]
    rw [show 0 + ((ensureHeader s0).2.length - 1) = m by omega]
  have hn : pyInt (countArg ((padTo nr
      (matWidth (appendRow (ensureHeader s0).2 nr))).getD ic "")) =
      some 1 := by
    rw [padTo_getD, hnrc]
    rfl
  obtain ⟨s2, hrun2b, hother, hcnt, _, _, _, _, _, _, _, _, hskip, hlen2⟩ :=
    updateFound_cells (appendRow (ensureHeader s0).2 nr) m sender t2
      none none none none none hic hit hist hifr hisu hica hitz hisd hitp hn
  have hfind2b : findMatch (ensureHeader (appendRow (ensureHeader s0).2 nr)).1
      email ((getAllValues
        (ensureHeader (appendRow (ensureHeader s0).2 nr)).2).drop 1) 0 =
      .ok (some (m, padTo nr
        (matWidth (appendRow (ensureHeader s0).2 nr)))) := by
    have heq : (ensureHeader (appendRow (ensureHeader s0).2 nr)).1 =
        (ensureHeader s0).1 := by rw [hEH1]
    have heq2 : (ensureHeader (appendRow (ensureHeader s0).2 nr)).2 =
        appendRow (ensureHeader s0).2 nr := by rw [hEH1]
    rw [heq, heq2]
    exact hfind2
  have hrun2 : updateSheet (appendRow (ensureHeader s0).2 nr) email sender t2
      none none none none none = .ok s2 := by
    have heq := updateSheet_found (appendRow (ensureHeader s0).2 nr) email
      sender t2 none none none none none hfind2b
    have heq1 : (ensureHeader (appendRow (ensureHeader s0).2 nr)).1 =
        (ensureHeader s0).1 := by rw [hEH1]
    have heq2 : (ensureHeader (appendRow (ensureHeader s0).2 nr)).2 =
        appendRow (ensureHeader s0).2 nr := by rw [hEH1]
    rw [heq1, heq2] at heq
    exact heq.trans hrun2b
  have hlen1 : (appendRow (ensureHeader s0).2 nr).length =
      (ensureHeader s0).2.length + 1 := by
    simp [appendRow]
  have hlen2b : s2.length = (appendRow (ensureHeader s0).2 nr).length := by
    apply hlen2
    omega
  have hieC : ie ≠ ic := keyIdx_ne hie hic (by decide)
  have hieT : ie ≠ it := keyIdx_ne hie hit (by decide)
  have hieS : ie ≠ ist := keyIdx_ne hie hist (by decide)
  have hieF : ie ≠ ifr := keyIdx_ne hie hifr (by decide)
  have hieSu : ie ≠ isu := keyIdx_ne hie hisu (by decide)
  have hieCa : ie ≠ ica := keyIdx_ne hie hica (by decide)
  have hieTz : ie ≠ itz := keyIdx_ne hie hitz (by decide)
  have hieSd : ie ≠ isd := keyIdx_ne hie hisd (by decide)
  have hieTp : ie ≠ itp := keyIdx_ne hie hitp (by decide)
  refine ⟨appendRow (ensureHeader s0).2 nr, s2, ic, hrun1, hrun2,
    hlen1, by rw [hlen2b, hlen1], hic, ?_, ?_⟩
  · rw [hm]
    have := hcnt
    norm_num at this
    rw [this]
    rfl
  · intro r2 h1r h2r
    by_cases hr2 : r2 = m + 1
    · subst hr2
      rw [matchesEmail_row]
      have hcell : cellGet s2 (m + 1) ie =
          cellGet (appendRow (ensureHeader s0).2 nr) (m + 1) ie :=
        hskip ie hieC hieT hieS hieF hieSu hieCa hieTz hieSd hieTp
      have hcell2 : cellGet (appendRow (ensureHeader s0).2 nr) (m + 1) ie =
          email := by
        unfold cellGet appendRow
        rw [show m + 1 = (ensureHeader s0).2.length from hm.symm,
          getD_append_last, hnre]
      rw [hcell, hcell2, hstrip, hm]
      simp
    · constructor
      · intro hmt
        exfalso
        rw [matchesEmail_row] at hmt
        have hcell : cellGet s2 r2 ie =
            cellGet (appendRow (ensureHeader s0).2 nr) r2 ie :=
          hother r2 ie hr2
        have hr2lt : r2 < (ensureHeader s0).2.length := by
          rw [hlen2b, hlen1] at h2r
          omega
        have hcell2 : cellGet (appendRow (ensureHeader s0).2 nr) r2 ie =
            cellGet (ensureHeader s0).2 r2 ie := by
          unfold cellGet appendRow
          rw [getD_append_lt hr2lt]
        have hmem := getD_mem_drop1 h1r hr2lt
        have hfalse := hnomatch _ hmem
        unfold matchesEmail at hfalse
        rw [hcell, hcell2] at hmt
        unfold cellGet at hmt
        rw [hmt] at hfalse
        cases hfalse
      · intro hmt
        rw [hm] at hmt
        exact absurd hmt hr2

/-- C5 counterexample: with an email that carries a leading space, the
email cell stored by the first open never matches the lookup
normalisation (cell.strip().lower() vs email.lower()), so the second
open appends a second row instead of updating; two rows for that email
remain, refuting "exactly one row ... with open-count 2". -/
theorem c5_counterexample :
    ∃ s1 s2,
      updateSheet [] " A@x.com" "s@x.com" "t1" none none none none none =
        .ok s1 ∧
      updateSheet s1 " A@x.com" "s@x.com" "t2" none none none none none =
        .ok s2 ∧
      (s2.drop 1).countP (fun r => r.getD 2 "" = " A@x.com") = 2 ∧
      (s2.drop 1).countP (fun r => matchesEmail " A@x.com" 2 r) = 0 ∧
      s2.length = 3 := by
  refine ⟨[DEFAULT_HEADERS,
      ["t1", "OPENED", " A@x.com", "1", "t1", "s@x.com", "", "", "", "", ""]],
    [DEFAULT_HEADERS,
      ["t1", "OPENED", " A@x.com", "1", "t1", "s@x.com", "", "", "", "", ""],
      ["t2", "OPENED", " A@x.com", "1", "t2", "s@x.com", "", "", "", "", ""]],
    ?_, ?_, ?_, ?_, ?_⟩
  · rfl
  · rfl
  · rfl
  · rfl
  · rfl

/-- C5 witness: two opens for a clean email on the empty collection. -/
theorem c5_two_opens_witness :
    ∃ s1 s2 ic,
      updateSheet [] "a@x.com" "s@x.com" "t1" none none none none none =
        .ok s1 ∧
      updateSheet s1 "a@x.com" "s@x.com" "t2" none none none none none =
        .ok s2 ∧
      s1.length = (ensureHeader []).2.length + 1 ∧
      s2.length = s1.length ∧
      keyIdx (ensureHeader []).1 "Open_count" = .ok ic ∧
      cellGet s2 (ensureHeader []).2.length ic = "2" ∧
      (∀ r2, 1 ≤ r2 → r2 < s2.length →
        (matchesEmail "a@x.com" 2 (s2.getD r2 []) = true ↔
          r2 = (ensureHeader []).2.length)) :=
  c5_two_opens [] "a@x.com" "s@x.com" "t1" "t2" (by decide) (by rfl)
    (Or.inl rfl) (by decide) 2 (by rfl) (by decide)

/-! ## JSON model (json.loads / json.dumps over byte lists) -/

mutual

inductive Json where
  | null
  | bool (b : Bool)
  | num (lex : List Nat)
  | str (s : List Nat)
  | arr (xs : JsonArr)
  | obj (xs : JsonObj)

inductive JsonArr where
  | nil
  | cons (hd : Json) (tl : JsonArr)

inductive JsonObj where
  | nil
  | cons (k : List Nat) (v : Json) (tl : JsonObj)

end

/-- Python dict lookup. -/
def objLookup : JsonObj → List Nat → Option Json
  | .nil, _ => none
  | .cons k v tl, key => if k = key then some v else objLookup tl key

def objHasKey : JsonObj → List Nat → Bool
  | .nil, _ => false
  | .cons k _ tl, key => k = key || objHasKey tl key

/-- Python dict insertion while parsing: a repeated key replaces the
value in place (insertion order kept), a new key is appended. -/
def objInsert : JsonObj → List Nat → Json → JsonObj
  | .nil, k, v => .cons k v .nil
  | .cons k0 v0 tl, k, v =>
    if k0 = k then .cons k0 v tl else .cons k0 v0 (objInsert tl k v)

def isJWs (c : Nat) : Bool := c = 32 || c = 9 || c = 10 || c = 13

def skipWs (l : List Nat) : List Nat := l.dropWhile isJWs

def isDigitB (c : Nat) : Bool := 48 ≤ c && c ≤ 57

def parseHexDigit (c : Nat) : Option Nat :=
  if 48 ≤ c && c ≤ 57 then some (c - 48)
  else if 97 ≤ c && c ≤ 102 then some (c - 87)
  else if 65 ≤ c && c ≤ 70 then some (c - 55)
  else none

def escChar (e : Nat) : Option Nat :=
  if e = 34 then some 34
  else if e = 92 then some 92
  else if e = 47 then some 47
  else if e = 98 then some 8
  else if e = 102 then some 12
  else if e = 110 then some 10
  else if e = 114 then some 13
  else if e = 116 then some 9
  else none

/-- JSON string body after the opening quote: content and remainder
after the closing quote; strict mode rejects raw control characters
(and the model's alphabet is bytes). -/
def parseStrBody : List Nat → Option (List Nat × List Nat)
  | [] => none
  | c :: rest =>
    if c = 34 then some ([], rest)
    else if c = 92 then
      match rest with
      | 117 :: h1 :: h2 :: h3 :: h4 :: rest2 =>
        match parseHexDigit h1, parseHexDigit h2, parseHexDigit h3,
            parseHexDigit h4 with
        | some d1, some d2, some d3, some d4 =>
          (parseStrBody rest2).map
            (fun p => ((((d1 * 16 + d2) * 16 + d3) * 16 + d4) :: p.1, p.2))
        | _, _, _, _ => none
      | e :: rest2 =>
        match escChar e with
        | some ec => (parseStrBody rest2).map (fun p => (ec :: p.1, p.2))
        | none => none
      | [] => none
    else if c < 32 || 256 ≤ c then none
    else (parseStrBody rest).map (fun p => (c :: p.1, p.2))

def spanDigits : List Nat → (List Nat × List Nat)
  | [] => ([], [])
  | c :: rest =>
    if isDigitB c then
      let p := spanDigits rest
      (c :: p.1, p.2)
    else ([], c :: rest)

/-- JSON integer part: a lone 0, or a nonzero digit then digits. -/
def parseIntPart : List Nat → Option (List Nat × List Nat)
  | [] => none
  | c :: rest =>
    if c = 48 then some ([48], rest)
    else if 49 ≤ c && c ≤ 57 then
      let p := spanDigits rest
      some (c :: p.1, p.2)
    else none

def parseFrac : List Nat → (List Nat × List Nat)
  | 46 :: rest =>
    match spanDigits rest with
    | ([], _) => ([], 46 :: rest)
    | (ds, rest2) => (46 :: ds, rest2)
  | l => ([], l)

def parseExp : List Nat → (List Nat × List Nat)
  | [] => ([], [])
  | c :: rest =>
    if c = 101 || c = 69 then
      match rest with
      | [] => ([], [c])
      | s :: rest2 =>
        if s = 43 || s = 45 then
          match spanDigits rest2 with
          | ([], _) => ([], c :: s :: rest2)
          | (ds, rest3) => (c :: s :: ds, rest3)
        else
          match spanDigits rest with
          | ([], _) => ([], c :: rest)
          | (ds, rest3) => (c :: ds, rest3)
    else ([], c :: rest)

def parseNumCore (l : List Nat) : Option (List Nat × List Nat) :=
  (parseIntPart l).map (fun p =>
    let f := parseFrac p.2
    let e := parseExp f.2
    (p.1 ++ f.1 ++ e.1, e.2))

/-- JSON number lexeme (maximal munch as in the json module grammar). -/
def parseNum : List Nat → Option (List Nat × List Nat)
  | 45 :: rest =>
    (parseNumCore rest).map (fun p => (45 :: p.1, p.2))
  | l => parseNumCore l

mutual

/-- Recursive-descent JSON value parser with fuel (the fuel only bounds
nesting and is always sufficient at jsonParse's choice). -/
def parseVal : Nat → List Nat → Option (Json × List Nat)
  | 0, _ => none
  | Nat.succ f, bs =>
    match skipWs bs with
    | [] => none
    | c :: rest =>
      if c = 34 then (parseStrBody rest).map (fun p => (Json.str p.1, p.2))
      else if c = 123 then
        match skipWs rest with
        | 125 :: rest2 => some (Json.obj .nil, rest2)
        | l => parseMembers f JsonObj.nil l
      else if c = 91 then
        match skipWs rest with
        | 93 :: rest2 => some (Json.arr .nil, rest2)
        | l => (parseElems f l).map (fun p => (Json.arr p.1, p.2))
      else if c = 116 then
        match rest with
        | 114 :: 117 :: 101 :: rest2 => some (Json.bool true, rest2)
        | _ => none
      else if c = 102 then
        match rest with
        | 97 :: 108 :: 115 :: 101 :: rest2 => some (Json.bool false, rest2)
        | _ => none
      else if c = 110 then
        match rest with
        | 117 :: 108 :: 108 :: rest2 => some (Json.null, rest2)
        | _ => none
      else (parseNum (c :: rest)).map (fun p => (Json.num p.1, p.2))

def parseMembers : Nat → JsonObj → List Nat → Option (Json × List Nat)
  | 0, _, _ => none
  | Nat.succ f, acc, bs =>
    match skipWs bs with
    | [] => none
    | c :: rest =>
      if c = 34 then
        match parseStrBody rest with
        | none => none
        | some (k, rest2) =>
          match skipWs rest2 with
          | [] => none
          | c2 :: rest3 =>
            if c2 = 58 then
              match parseVal f rest3 with
              | none => none
              | some (v, rest4) =>
                match skipWs rest4 with
                | [] => none
                | c3 :: rest5 =>
                  if c3 = 44 then parseMembers f (objInsert acc k v) rest5
                  else if c3 = 125 then
                    some (Json.obj (objInsert acc k v), rest5)
                  else none
            else none
      else none

def parseElems : Nat → List Nat → Option (JsonArr × List Nat)
  | 0, _ => none
  | Nat.succ f, bs =>
    match parseVal f bs with
    | none => none
    | some (v, rest) =>
      match skipWs rest with
      | [] => none
      | c :: rest2 =>
        if c = 44 then
          match parseElems f rest2 with
          | none => none
          | some (tl, rest3) => some (JsonArr.cons v tl, rest3)
        else if c = 93 then some (JsonArr.cons v .nil, rest2)
        else none

end

/-- json.loads on a byte list: parse one value, then only whitespace
may remain. -/
def jsonParse (bs : List Nat) : Option Json :=
  match parseVal (bs.length + 1) bs with
  | some (v, rest) => if skipWs rest = [] then some v else none
  | none => none

/-! ## base64.urlsafe_b64decode (binascii a2b_base64, non-strict) -/

def b64Val (c : Char) : Option Nat :=
  if 'A' ≤ c && c ≤ 'Z' then some (c.toNat - 65)
  else if 'a' ≤ c && c ≤ 'z' then some (c.toNat - 71)
  else if '0' ≤ c && c ≤ '9' then some (c.toNat + 4)
  else if c = '-' || c = '+' then some 62
  else if c = '_' || c = '/' then some 63
  else none

def decodeQuad : List Nat → List Nat
  | [a, b, c, d] => [a * 4 + b / 16, b % 16 * 16 + c / 4, c % 4 * 64 + d]
  | _ => []

def decodePartial : List Nat → List Nat
  | [a, b] => [a * 4 + b / 16]
  | [a, b, c] => [a * 4 + b / 16, b % 16 * 16 + c / 4]
  | _ => []

/-- binascii a2b_base64 in non-strict mode: scan the characters,
flushing each completed quad of sextets; an invalid character is
ignored; '=' raises the padding count, and once the pending quad has at
least two characters and quad+padding reaches four, decoding ends and
the rest is ignored; a data character resets the padding count; any
other leftover at the end is a padding error. -/
def a2bLoop : List Char → List Nat → Nat → Option (List Nat)
  | [], quad, _ => if quad.length = 0 then some [] else none
  | c :: rest, quad, pads =>
    if c = '=' then
      if 2 ≤ quad.length && 4 ≤ quad.length + (pads + 1) then
        some (decodePartial quad)
      else a2bLoop rest quad (pads + 1)
    else
      match b64Val c with
      | some v =>
        if quad.length = 3 then
          (a2bLoop rest [] 0).map (fun out => decodeQuad (quad ++ [v]) ++ out)
        else a2bLoop rest (quad ++ [v]) 0
      | none => a2bLoop rest quad pads

def urlsafeB64Decode (s : List Char) : Option (List Nat) := a2bLoop s [] 0

/-- path.split(".")[0]. -/
def tokenOf (path : String) : List Char :=
  path.data.takeWhile (fun c => c ≠ '.')

/-- token + "=" * (-len(token) % 4). -/
def padToken (t : List Char) : List Char :=
  t ++ List.replicate ((4 - t.length % 4) % 4) '='

def strBytes (s : String) : List Nat := s.data.map Char.toNat

/-- The decode block of track: strip the extension, pad, base64-decode,
json-parse and read the "metadata" key with default {}; every failure
inside the try block (including .get on a non-dict value) yields none. -/
def decodeInfo (path : String) : Option Json :=
  match urlsafeB64Decode (padToken (tokenOf path)) with
  | none => none
  | some bytes =>
    match jsonParse bytes with
    | none => none
    | some (Json.obj kvs) =>
      some ((objLookup kvs (strBytes "metadata")).getD (Json.obj .nil))
    | some _ => none

/-! ## datetime model: fromisoformat, IST timestamps -/

/-- Days since 1970-01-01 of a proleptic Gregorian date
(the standard civil-from-days algorithm, truncated division as in C). -/
def daysFromCivil (y m d : Int) : Int :=
  let y2 := if m ≤ 2 then y - 1 else y
  let era := (if 0 ≤ y2 then y2 else y2 - 399) / 400
  let yoe := y2 - era * 400
  let mp := (m + 9) % 12
  let doy := (153 * mp + 2) / 5 + d - 1
  let doe := yoe * 365 + yoe / 4 - yoe / 100 + doy
  era * 146097 + doe - 719468

def civilFromDays (z0 : Int) : Int × Int × Int :=
  let z := z0 + 719468
  let era := (if 0 ≤ z then z else z - 146096) / 146097
  let doe := z - era * 146097
  let yoe := (doe - doe / 1460 + doe / 36524 - doe / 146096) / 365
  let y := yoe + era * 400
  let doy := doe - (365 * yoe + yoe / 4 - yoe / 100)
  let mp := (5 * doy + 2) / 153
  let d := doy - (153 * mp + 2) / 5 + 1
  let m := if mp < 10 then mp + 3 else mp - 9
  (if m ≤ 2 then y + 1 else y, m, d)

def isLeap (y : Int) : Bool := y % 4 = 0 && (y % 100 ≠ 0 || y % 400 = 0)

def daysInMonth (y : Int) (m : Nat) : Nat :=
  if m = 2 then (if isLeap y then 29 else 28)
  else if m = 4 || m = 6 || m = 9 || m = 11 then 30
  else 31

/-- A parsed datetime: wall-clock value in microseconds since epoch and
an optional UTC offset (none = naive). -/
structure PyDT where
  naiveMicros : Int
  offsetSeconds : Option Int
deriving DecidableEq

def d2 : List Nat → Option (Nat × List Nat)
  | a :: b :: rest =>
    if isDigitB a && isDigitB b then some ((a - 48) * 10 + (b - 48), rest)
    else none
  | _ => none

def d4 : List Nat → Option (Nat × List Nat)
  | a :: b :: c :: d :: rest =>
    if isDigitB a && isDigitB b && isDigitB c && isDigitB d then
      some ((((a - 48) * 10 + (b - 48)) * 10 + (c - 48)) * 10 + (d - 48), rest)
    else none
  | _ => none

def pow10 : Nat → Nat
  | 0 => 1
  | n + 1 => 10 * pow10 n

def digitsVal (ds : List Nat) : Nat :=
  ds.foldl (fun acc c => acc * 10 + (c - 48)) 0

/-- Fractional seconds after the dot: one to six digits, scaled to
microseconds. -/
def parseFracPart (l : List Nat) : Option (Nat × List Nat) :=
  match spanDigits l with
  | ([], _) => none
  | (ds, rest) =>
    if ds.length ≤ 6 then some (digitsVal ds * pow10 (6 - ds.length), rest)
    else none

/-- Time part HH[:MM[:SS[.ffffff]]]: hours, minutes, seconds, micros. -/
def parseTimePart (l : List Nat) : Option (Nat × Nat × Nat × Nat × List Nat) :=
  match d2 l with
  | none => none
  | some (h, rest) =>
    match rest with
    | 58 :: rest2 =>
      match d2 rest2 with
      | none => none
      | some (mi, rest3) =>
        match rest3 with
        | 58 :: rest4 =>
          match d2 rest4 with
          | none => none
          | some (s, rest5) =>
            match rest5 with
            | 46 :: rest6 =>
              match parseFracPart rest6 with
              | none => none
              | some (us, rest7) => some (h, mi, s, us, rest7)
            | _ => some (h, mi, s, 0, rest5)
        | _ => some (h, mi, 0, 0, rest3)
    | _ => some (h, 0, 0, 0, rest)

/-- UTC offset suffix: nothing (naive), Z, or ±HH:MM[:SS]. -/
def parseOffsetPart (l : List Nat) : Option (Option Int × List Nat) :=
  match l with
  | [] => some (none, [])
  | 90 :: rest => some (some 0, rest)
  | c :: rest =>
    if c = 43 || c = 45 then
      match d2 rest with
      | none => none
      | some (oh, rest2) =>
        match rest2 with
        | 58 :: rest3 =>
          match d2 rest3 with
          | none => none
          | some (om, rest4) =>
            let rest5res :=
              match rest4 with
              | 58 :: rest5 =>
                match d2 rest5 with
                | none => none
                | some (os, rest6) => some (os, rest6)
              | _ => some (0, rest4)
            match rest5res with
            | none => none
            | some (os, rest6) =>
              let total : Int := (oh : Int) * 3600 + (om : Int) * 60 + (os : Int)
              if oh ≤ 23 && om ≤ 59 && os ≤ 59 then
                some (some (if c = 45 then -total else total), rest6)
              else none
        | _ => none
    else none

/-- datetime.fromisoformat on the formats this service meets:
YYYY-MM-DD, optionally a single separator character and a time
HH[:MM[:SS[.ffffff]]], optionally an offset Z or ±HH:MM[:SS]; field
ranges validated as in CPython. -/
def pyFromIso (l : List Nat) : Option PyDT :=
  match d4 l with
  | none => none
  | some (y, r1) =>
    match r1 with
    | 45 :: r2 =>
      match d2 r2 with
      | none => none
      | some (mo, r3) =>
        match r3 with
        | 45 :: r4 =>
          match d2 r4 with
          | none => none
          | some (dy, r5) =>
            if 1 ≤ y && 1 ≤ mo && mo ≤ 12 && 1 ≤ dy &&
                dy ≤ daysInMonth (y : Int) mo then
              match r5 with
              | [] => some ⟨daysFromCivil y mo dy * 86400000000, none⟩
              | _ :: r6 =>
                match parseTimePart r6 with
                | none => none
                | some (h, mi, s, us, r7) =>
                  if h ≤ 23 && mi ≤ 59 && s ≤ 59 then
                    match parseOffsetPart r7 with
                    | none => none
                    | some (off, r8) =>
                      if r8 = [] then
                        some ⟨daysFromCivil y mo dy * 86400000000 +
                          ((h * 3600 + mi * 60 + s) * 1000000 + us : Nat),
                          off⟩
                      else none
                  else none
            else none
        | _ => none
    | _ => none

/-! ## The track endpoint -/

/-- The transparent 1x1 GIF payload, byte for byte. -/
def PIXEL_BYTES : List Nat :=
  [71, 73, 70, 56, 57, 97, 1, 0, 1, 0, 128, 0, 0, 0, 0, 0,
   255, 255, 255, 33, 249, 4, 1, 0, 0, 0, 0, 44,
   0, 0, 0, 0, 1, 0, 1, 0, 0, 2, 2,
   76, 1, 0, 59]

structure HttpResp where
  status : Nat
  mimetype : String
  body : List Nat
deriving DecidableEq

/-- send_file(io.BytesIO(PIXEL_BYTES), mimetype="image/gif"). -/
def pixelResp : HttpResp := ⟨200, "image/gif", PIXEL_BYTES⟩

/-- What the route produces: a returned response, or an uncaught
exception that escapes the handler (Flask then serves a 500 error page
instead of the pixel). -/
inductive Outcome where
  | ok (r : HttpResp)
  | exn (msg : String)
deriving DecidableEq

structure Workbook where
  tabs : List (String × Sheet)
deriving DecidableEq

def IST_OFFSET_SECONDS : Int := 19800

def MICROS_7S : Int := 7000000

def padNum (w : Nat) (n : Int) : String :=
  let s := toString n
  if s.length < w then String.mk (List.replicate (w - s.length) '0') ++ s else s

/-- now.strftime("%Y-%m-%d %H:%M:%S") for an instant localised to IST. -/
def formatTimestampIST (nowUtcMicros : Int) : String :=
  let lm := nowUtcMicros + IST_OFFSET_SECONDS * 1000000
  let day := Int.fdiv lm 86400000000
  let sod := Int.emod lm 86400000000 / 1000000
  let c := civilFromDays day
  padNum 4 c.1 ++ "-" ++ padNum 2 c.2.1 ++ "-" ++ padNum 2 c.2.2 ++ " " ++
    padNum 2 (sod / 3600) ++ ":" ++ padNum 2 (sod / 60 % 60) ++ ":" ++
    padNum 2 (sod % 60)

def bytesToStr (bs : List Nat) : String := String.mk (bs.map Char.ofNat)

/-- info.get(k) followed by use as a string; non-string values are out
of the fragment this model covers (theorems assume string-valued
metadata), absent or null behave as None. -/
def jStrField (kvs : JsonObj) (k : String) : Option String :=
  match objLookup kvs (strBytes k) with
  | some (Json.str s) => some (bytesToStr s)
  | _ => none

/-- All values of the metadata object are JSON strings: the fragment in
which the model's field extraction agrees with Python. -/
def StrValues : JsonObj → Prop
  | .nil => True
  | .cons _ v tl => (∃ s, v = Json.str s) ∧ StrValues tl

def replaceTab : List (String × Sheet) → String → Sheet →
    List (String × Sheet)
  | [], _, _ => []
  | (t, sh) :: rest, name, sh2 =>
    if t = name then (t, sh2) :: rest else (t, sh) :: replaceTab rest name sh2

/-- The suppression filter: only a sent_time string that fromisoformat
parses to an offset-aware datetime less than seven seconds before now
suppresses the write; a naive result makes the aware-minus-naive
subtraction raise TypeError, which the bare except swallows, and a
parse failure or non-string is likewise swallowed. -/
def suppressHit (kvs : JsonObj) (nowUtcMicros : Int) : Bool :=
  match objLookup kvs (strBytes "sent_time") with
  | some (Json.str st) =>
    match pyFromIso st with
    | some dt =>
      match dt.offsetSeconds with
      | some off =>
        decide (nowUtcMicros - (dt.naiveMicros - off * 1000000) < MICROS_7S)
      | none => false
    | none => false
  | _ => false

/-- The tab the request targets: the token's sheet field when truthy,
else the first existing tab, else "USA". -/
def resolveTab (kvs : JsonObj) (tabs : List String) : String :=
  match jStrField kvs "sheet" with
  | some s => if s = "" then tabs.headD "USA" else s
  | none => tabs.headD "USA"

/-- The outcome of the update_sheet call: success returns the pixel
with the updated tab stored back; an exception escapes the handler. -/
def finishOpen (wb1 : Workbook) (sheetTab : String)
    (res : Except String Sheet) : Outcome × Option Workbook :=
  match res with
  | .ok sheet2 => (.ok pixelResp, some ⟨replaceTab wb1.tabs sheetTab sheet2⟩)
  | .error m => (.exn m, some wb1)

/-- The workbook after the lazily-created tab, when needed. -/
def ensureTab (wb : Workbook) (sheetTab : String) : Workbook :=
  if (wb.tabs.map (fun p => p.1)).contains sheetTab then wb
  else ⟨wb.tabs ++ [(sheetTab, [])]⟩

/-- wb.worksheet(title): the first tab with the given title. -/
def worksheetOf (wb : Workbook) (sheetTab : String) : Sheet :=
  ((wb.tabs.find? (fun p => p.1 = sheetTab)).map (fun p => p.2)).getD []

/-- The recording path of the endpoint, reached when the token decoded,
the hit was not suppressed and the workbook opened: resolve or create
the tab, then, when email and sender are truthy, run update_sheet —
whose exceptions escape the handler. -/
def trackOpen (kvs : JsonObj) (timestamp : String) (wb : Workbook) :
    Outcome × Option Workbook :=
  let sheetTab := resolveTab kvs (wb.tabs.map (fun p => p.1))
  if truthy (jStrField kvs "email") && truthy (jStrField kvs "sender") then
    finishOpen (ensureTab wb sheetTab) sheetTab
      (updateSheet (worksheetOf (ensureTab wb sheetTab) sheetTab)
        ((jStrField kvs "email").getD "") ((jStrField kvs "sender").getD "")
        timestamp (jStrField kvs "sheet_name") (jStrField kvs "subject")
        (jStrField kvs "timezone") (jStrField kvs "date")
        (jStrField kvs "template"))
  else (.ok pixelResp, some (ensureTab wb sheetTab))

/-- The tracking endpoint: decode the token (failure returns the
pixel), suppress early hits, open the workbook (failure returns the
pixel), then record via trackOpen. Returns the outcome and the
workbook state. -/
def track (gcWb : Option Workbook) (nowUtcMicros : Int) (path : String) :
    Outcome × Option Workbook :=
  match decodeInfo path with
  | none => (.ok pixelResp, gcWb)
  | some (Json.obj kvs) =>
    if suppressHit kvs nowUtcMicros then (.ok pixelResp, gcWb)
    else
      match gcWb with
      | none => (.ok pixelResp, none)
      | some wb => trackOpen kvs (formatTimestampIST nowUtcMicros) wb
  | some _ => (.exn "AttributeError", gcWb)

/-- C2 counterexample: the path "YWJj" decodes as base64 to the invalid
JSON text "abc"; the endpoint still answers with exactly PIXEL_BYTES,
but that payload is 43 bytes long, not 42 as claimed. -/
theorem c2_counterexample :
    decodeInfo "YWJj" = none ∧
    (track (some ⟨[]⟩) 0 "YWJj").1 = .ok pixelResp ∧
    pixelResp.body = PIXEL_BYTES ∧
    PIXEL_BYTES.length ≠ 42 := by
  refine ⟨rfl, rfl, rfl, by decide⟩

/-- C2 (amended): whenever the token decode block fails (invalid
base64, invalid JSON, or a non-object document), the failure is caught
there, the workbook is untouched, and the endpoint returns HTTP 200
image/gif whose body is exactly the 43-byte PIXEL_BYTES constant. -/
theorem c2_decode_failure (gcWb : Option Workbook) (now : Int)
    (path : String) (h : decodeInfo path = none) :
    track gcWb now path = (.ok pixelResp, gcWb) ∧
    pixelResp.status = 200 ∧ pixelResp.mimetype = "image/gif" ∧
    pixelResp.body = PIXEL_BYTES ∧ PIXEL_BYTES.length = 43 := by
  refine ⟨?_, rfl, rfl, rfl, by decide⟩
  unfold track
  rw [h]

/-- C2 witness: the invalid-JSON path "YWJj". -/
theorem c2_decode_failure_witness :
    decodeInfo "YWJj" = none ∧
    (track (some ⟨[]⟩) 0 "YWJj" = (.ok pixelResp, some ⟨[]⟩) ∧
      pixelResp.status = 200 ∧ pixelResp.mimetype = "image/gif" ∧
      pixelResp.body = PIXEL_BYTES ∧ PIXEL_BYTES.length = 43) :=
  ⟨rfl, c2_decode_failure (some ⟨[]⟩) 0 "YWJj" rfl⟩

set_option maxRecDepth 20000 in
/-- C1 counterexample: a well-formed token for bob@x.com hitting a
sheet whose Open_count cell holds "abc" makes the row upsert raise
ValueError; the exception escapes the handler, so the client does not
receive the 200 image/gif pixel response. -/
theorem c1_counterexample :
    (track (some ⟨[("USA", [DEFAULT_HEADERS,
        ["", "", "bob@x.com", "abc", "", "", "", "", "", "", ""]])]⟩)
      1791799203000000
      "eyJtZXRhZGF0YSI6eyJlbWFpbCI6ImJvYkB4LmNvbSIsInNlbmRlciI6InNAeC5jb20iLCJzaGVldCI6IlVTQSJ9fQ.gif").1 =
      .exn "ValueError: invalid literal for int" ∧
    (track (some ⟨[("USA", [DEFAULT_HEADERS,
        ["", "", "bob@x.com", "abc", "", "", "", "", "", "", ""]])]⟩)
      1791799203000000
      "eyJtZXRhZGF0YSI6eyJlbWFpbCI6ImJvYkB4LmNvbSIsInNlbmRlciI6InNAeC5jb20iLCJzaGVldCI6IlVTQSJ9fQ.gif").1 ≠
      .ok pixelResp := by
  have h1 : (track (some ⟨[("USA", [DEFAULT_HEADERS,
      ["", "", "bob@x.com", "abc", "", "", "", "", "", "", ""]])]⟩)
      1791799203000000
      "eyJtZXRhZGF0YSI6eyJlbWFpbCI6ImJvYkB4LmNvbSIsInNlbmRlciI6InNAeC5jb20iLCJzaGVldCI6IlVTQSJ9fQ.gif").1 =
      .exn "ValueError: invalid literal for int" := rfl
  refine ⟨h1, ?_⟩
  rw [h1]
  intro hh
  cases hh

theorem finishOpen_ok {wb1 : Workbook} {t : String}
    {res : Except String Sheet} {r : HttpResp} {w : Option Workbook}
    (h : finishOpen wb1 t res = (.ok r, w)) : r = pixelResp := by
  cases res with
  | ok s2 =>
    simp only [finishOpen] at h
    injection h with h1 h2
    exact (Outcome.ok.inj h1).symm
  | error m =>
    simp only [finishOpen] at h
    injection h with h1 h2
    exact Outcome.noConfusion h1

theorem trackOpen_ok {kvs : JsonObj} {ts : String} {wb : Workbook}
    {r : HttpResp} {w : Option Workbook}
    (h : trackOpen kvs ts wb = (.ok r, w)) : r = pixelResp := by
  unfold trackOpen at h
  by_cases ht : (truthy (jStrField kvs "email") &&
      truthy (jStrField kvs "sender")) = true
  · rw [if_pos ht] at h
    exact finishOpen_ok h
  · rw [if_neg ht] at h
    injection h with h1 h2
    exact (Outcome.ok.inj h1).symm

/-- C1 (amended): any response the handler itself returns is the fixed
HTTP 200 image/gif pixel — decode failures, suppression, workbook
failures and missing email/sender all still return the pixel — but an
exception raised inside the row upsert escapes the handler instead of
producing a response. -/
theorem c1_returned_response (gcWb : Option Workbook) (now : Int)
    (path : String) (r : HttpResp) (w : Option Workbook)
    (h : track gcWb now path = (.ok r, w)) : r = pixelResp := by
  cases hd : decodeInfo path with
  | none =>
    simp only [track, hd] at h
    injection h with h1 h2
    exact (Outcome.ok.inj h1).symm
  | some info =>
    cases info with
    | obj kvs =>
      simp only [track, hd] at h
      by_cases hs : suppressHit kvs now = true
      · rw [if_pos hs] at h
        injection h with h1 h2
        exact (Outcome.ok.inj h1).symm
      · rw [if_neg hs] at h
        cases gcWb with
        | none =>
          injection h with h1 h2
          exact (Outcome.ok.inj h1).symm
        | some wb =>
          exact trackOpen_ok h
    | null =>
      simp only [track, hd] at h
      injection h with h1 h2
      exact Outcome.noConfusion h1
    | bool b =>
      simp only [track, hd] at h
      injection h with h1 h2
      exact Outcome.noConfusion h1
    | num lex =>
      simp only [track, hd] at h
      injection h with h1 h2
      exact Outcome.noConfusion h1
    | str s =>
      simp only [track, hd] at h
      injection h with h1 h2
      exact Outcome.noConfusion h1
    | arr xs =>
      simp only [track, hd] at h
      injection h with h1 h2
      exact Outcome.noConfusion h1

/-- C1 witness: a decode failure still returns the pixel response. -/
theorem c1_returned_response_witness :
    track (some ⟨[]⟩) 0 "YWJj" = (.ok pixelResp, some ⟨[]⟩) ∧
    pixelResp = pixelResp :=
  ⟨rfl, c1_returned_response (some ⟨[]⟩) 0 "YWJj" pixelResp (some ⟨[]⟩) rfl⟩

theorem track_suppressed {wb : Workbook} {now : Int} {path : String}
    {kvs : JsonObj} (hdec : decodeInfo path = some (Json.obj kvs))
    (hs : suppressHit kvs now = true) :
    track (some wb) now path = (.ok pixelResp, some wb) := by
  simp only [track, hdec, hs, if_true]

theorem track_not_suppressed {wb : Workbook} {now : Int} {path : String}
    {kvs : JsonObj} (hdec : decodeInfo path = some (Json.obj kvs))
    (hs : suppressHit kvs now = false) :
    track (some wb) now path = trackOpen kvs (formatTimestampIST now) wb := by
  simp only [track, hdec, hs, Bool.false_eq_true, if_false]

/-- C10: workbook and tab resolution — including creating the tab the
token's sheet field names when it does not exist — happens before the
email/sender presence check; a decoded, unsuppressed token naming a
nonexistent tab but lacking email or sender still creates that tab,
empty, and writes no row (the rest of the workbook is unchanged). -/
theorem c10_tab_before_email (wb : Workbook) (now : Int) (path : String)
    (kvs : JsonObj) (t : String)
    (hdec : decodeInfo path = some (Json.obj kvs))
    (hsup : suppressHit kvs now = false)
    (hsheet : jStrField kvs "sheet" = some t) (ht : t ≠ "")
    (hmem : (wb.tabs.map (fun p => p.1)).contains t = false)
    (hnowrite : truthy (jStrField kvs "email") = false ∨
      truthy (jStrField kvs "sender") = false) :
    track (some wb) now path =
      (.ok pixelResp, some ⟨wb.tabs ++ [(t, ([] : Sheet))]⟩) := by
  rw [track_not_suppressed hdec hsup]
  unfold trackOpen
  have hrt : resolveTab kvs (wb.tabs.map (fun p => p.1)) = t := by
    unfold resolveTab
    rw [hsheet]
    simp only [if_neg ht]
  rw [hrt]
  have hcond : (truthy (jStrField kvs "email") &&
      truthy (jStrField kvs "sender")) = false := by
    rcases hnowrite with h | h <;> simp [h]
  rw [hcond]
  simp only [Bool.false_eq_true, if_false]
  unfold ensureTab
  rw [hmem]
  simp

/-- C10 witness: a sheet-only token (no email) on a workbook with only
a USA tab creates the empty NewTab tab. -/
theorem c10_tab_before_email_witness :
    track (some ⟨[("USA", ([] : Sheet))]⟩) 0
      "eyJtZXRhZGF0YSI6eyJzaGVldCI6Ik5ld1RhYiJ9fQ" =
      (.ok pixelResp,
        some ⟨[("USA", ([] : Sheet))] ++ [("NewTab", ([] : Sheet))]⟩) :=
  c10_tab_before_email ⟨[("USA", ([] : Sheet))]⟩ 0
    "eyJtZXRhZGF0YSI6eyJzaGVldCI6Ik5ld1RhYiJ9fQ"
    (JsonObj.cons (strBytes "sheet") (Json.str (strBytes "NewTab"))
      JsonObj.nil)
    "NewTab" rfl rfl rfl (by decide) rfl (Or.inl rfl)

set_option maxRecDepth 20000 in
/-- C7 counterexample: sent_time "2026-10-12 10:00:00" parses as an
ISO-8601 timestamp lying three seconds before processing time, yet the
open IS recorded (a row is created): datetime.now(IST) is offset-aware
while the parsed value is naive, so the subtraction raises TypeError,
which the bare except swallows, and no suppression happens — refuting
"if the elapsed time ... is less than 7 seconds, no row is created". -/
theorem c7_counterexample :
    pyFromIso (strBytes "2026-10-12 10:00:00") =
      some ⟨1791799200000000, none⟩ ∧
    (1791799203000000 : Int) - 1791799200000000 < MICROS_7S ∧
    track (some ⟨[]⟩) 1791799203000000
      "eyJtZXRhZGF0YSI6eyJlbWFpbCI6ImFAeC5jb20iLCJzZW5kZXIiOiJzQHguY29tIiwic2VudF90aW1lIjoiMjAyNi0xMC0xMiAxMDowMDowMCJ9fQ" =
      (.ok pixelResp, some ⟨[("USA", [DEFAULT_HEADERS,
        ["2026-10-12 15:30:03", "OPENED", "a@x.com", "1",
         "2026-10-12 15:30:03", "s@x.com", "", "", "", "", ""]])]⟩) := by
  refine ⟨rfl, by decide, rfl⟩

/-- C7 (amended): the prefetch filter suppresses a hit only for an
offset-aware sent_time: when sent_time parses with a UTC offset and
the elapsed time from it to now is under seven seconds, no workbook
state is touched and the pixel is returned; with at least seven
seconds the request proceeds to the recording path; and a sent_time
that fails to parse — or parses without an offset, making the
aware-minus-naive subtraction raise — is swallowed by the bare except
and never suppresses recording. -/
theorem c7_suppression (wb : Workbook) (now : Int) (path : String)
    (kvs : JsonObj) (st : List Nat)
    (hdec : decodeInfo path = some (Json.obj kvs))
    (hst : objLookup kvs (strBytes "sent_time") = some (Json.str st)) :
    (∀ dt off, pyFromIso st = some dt → dt.offsetSeconds = some off →
      (now - (dt.naiveMicros - off * 1000000) < MICROS_7S →
        track (some wb) now path = (.ok pixelResp, some wb)) ∧
      (MICROS_7S ≤ now - (dt.naiveMicros - off * 1000000) →
        track (some wb) now path =
          trackOpen kvs (formatTimestampIST now) wb)) ∧
    ((pyFromIso st = none ∨
        (∃ dt, pyFromIso st = some dt ∧ dt.offsetSeconds = none)) →
      track (some wb) now path =
        trackOpen kvs (formatTimestampIST now) wb) := by
  constructor
  · intro dt off hp hoff
    constructor
    · intro hlt
      apply track_suppressed hdec
      simp only [suppressHit, hst, hp, hoff]
      simpa using hlt
    · intro hge
      apply track_not_suppressed hdec
      simp only [suppressHit, hst, hp, hoff]
      simp only [decide_eq_false_iff_not, not_lt]
      omega
  · intro hbad
    apply track_not_suppressed hdec
    rcases hbad with hp | ⟨dt, hp, hoff⟩
    · simp only [suppressHit, hst, hp]
    · simp only [suppressHit, hst, hp, hoff]

set_option maxRecDepth 20000 in
/-- C7 witness: an offset-aware sent_time three seconds before
processing time suppresses the write; the workbook stays empty. -/
theorem c7_suppression_witness :
    track (some ⟨[]⟩) 1791799203000000
      "eyJtZXRhZGF0YSI6eyJlbWFpbCI6ImFAeC5jb20iLCJzZW5kZXIiOiJzQHguY29tIiwic2VudF90aW1lIjoiMjAyNi0xMC0xMiAxNTozMDowMCswNTozMCJ9fQ" =
      (.ok pixelResp, some ⟨[]⟩) :=
  ((c7_suppression ⟨[]⟩ 1791799203000000
      "eyJtZXRhZGF0YSI6eyJlbWFpbCI6ImFAeC5jb20iLCJzZW5kZXIiOiJzQHguY29tIiwic2VudF90aW1lIjoiMjAyNi0xMC0xMiAxNTozMDowMCswNTozMCJ9fQ"
      (JsonObj.cons (strBytes "email") (Json.str (strBytes "a@x.com"))
        (JsonObj.cons (strBytes "sender") (Json.str (strBytes "s@x.com"))
          (JsonObj.cons (strBytes "sent_time")
            (Json.str (strBytes "2026-10-12 15:30:00+05:30")) JsonObj.nil)))
      (strBytes "2026-10-12 15:30:00+05:30") rfl rfl).1
    ⟨1791819000000000, some 19800⟩ 19800 rfl rfl).1 (by decide)

/-! ## json.dumps model and the decode/encode round trip -/

def hexDigitChar (n : Nat) : Nat := if n < 10 then 48 + n else 87 + n

/-- One character of a dumped JSON string: quote and backslash get
two-character escapes, controls and non-ASCII get a u-escape (as with
ensure_ascii), the rest is literal. -/
def encodeStrChar (c : Nat) : List Nat :=
  if c = 34 then [92, 34]
  else if c = 92 then [92, 92]
  else if c < 32 || 127 ≤ c then
    [92, 117, hexDigitChar (c / 4096 % 16), hexDigitChar (c / 256 % 16),
     hexDigitChar (c / 16 % 16), hexDigitChar (c % 16)]
  else [c]

def encStrBody (s : List Nat) : List Nat :=
  s.foldr (fun c acc => encodeStrChar c ++ acc) []

def encStr (s : List Nat) : List Nat := 34 :: encStrBody s ++ [34]

mutual

/-- json.dumps with compact separators, over the same byte alphabet as
the parser. -/
def encVal : Json → List Nat
  | .null => [110, 117, 108, 108]
  | .bool true => [116, 114, 117, 101]
  | .bool false => [102, 97, 108, 115, 101]
  | .num lex => lex
  | .str s => encStr s
  | .arr .nil => [91, 93]
  | .arr (.cons v tl) => 91 :: (encVal v ++ encTailElems tl ++ [93])
  | .obj .nil => [123, 125]
  | .obj (.cons k v tl) =>
    123 :: (encStr k ++ 58 :: encVal v ++ encTailMembers tl ++ [125])

def encTailElems : JsonArr → List Nat
  | .nil => []
  | .cons v tl => 44 :: (encVal v ++ encTailElems tl)

def encTailMembers : JsonObj → List Nat
  | .nil => []
  | .cons k v tl => 44 :: (encStr k ++ 58 :: encVal v ++ encTailMembers tl)

end

mutual

/-- Fuel needed by the parser on the encoding of a value. -/
def needV : Json → Nat
  | .null => 1
  | .bool _ => 1
  | .num _ => 1
  | .str _ => 1
  | .arr .nil => 1
  | .arr (.cons v tl) => needE (JsonArr.cons v tl) + 1
  | .obj .nil => 1
  | .obj (.cons k v tl) => needM (JsonObj.cons k v tl) + 1

def needE : JsonArr → Nat
  | .nil => 0
  | .cons v tl => max (needV v) (needE tl) + 1

def needM : JsonObj → Nat
  | .nil => 0
  | .cons _ v tl => max (needV v) (needM tl) + 1

end

def strOkB (s : List Nat) : Bool := s.all (fun c => c < 65536)

mutual

/-- Values in the image of the parser: lexemes re-parse exactly, string
code points fit in a u-escape, and object keys are unique. -/
def wfV : Json → Prop
  | .null => True
  | .bool _ => True
  | .num lex => parseNum lex = some (lex, [])
  | .str s => strOkB s = true
  | .arr xs => wfA xs
  | .obj xs => wfO xs

def wfA : JsonArr → Prop
  | .nil => True
  | .cons v tl => wfV v ∧ wfA tl

def wfO : JsonObj → Prop
  | .nil => True
  | .cons k v tl => strOkB k = true ∧ objHasKey tl k = false ∧ wfV v ∧ wfO tl

end

/-- Characters that could extend a number lexeme. -/
def isNumCont (c : Nat) : Bool :=
  isDigitB c || c = 46 || c = 101 || c = 69

/-- A continuation that cannot extend a preceding number lexeme. -/
def numSafe : List Nat → Prop
  | [] => True
  | c :: _ => isNumCont c = false

def objAppend : JsonObj → JsonObj → JsonObj
  | .nil, ys => ys
  | .cons k v tl, ys => .cons k v (objAppend tl ys)


theorem parseStrBody_cons (c : Nat) (rest : List Nat) :
    parseStrBody (c :: rest) =
      if c = 34 then some ([], rest)
      else if c = 92 then
        match rest with
        | 117 :: h1 :: h2 :: h3 :: h4 :: rest2 =>
          match parseHexDigit h1, parseHexDigit h2, parseHexDigit h3,
              parseHexDigit h4 with
          | some d1, some d2, some d3, some d4 =>
            (parseStrBody rest2).map
              (fun p => ((((d1 * 16 + d2) * 16 + d3) * 16 + d4) :: p.1, p.2))
          | _, _, _, _ => none
        | e :: rest2 =>
          match escChar e with
          | some ec => (parseStrBody rest2).map (fun p => (ec :: p.1, p.2))
          | none => none
        | [] => none
      else if c < 32 || 256 ≤ c then none
      else (parseStrBody rest).map (fun p => (c :: p.1, p.2)) := by
  rw [parseStrBody.eq_def]

theorem parseHex_hexDigitChar {n : Nat} (h : n < 16) :
    parseHexDigit (hexDigitChar n) = some n := by
  interval_cases n <;> decide

theorem encStrBody_cons (c : Nat) (cs : List Nat) :
    encStrBody (c :: cs) = encodeStrChar c ++ encStrBody cs := rfl

theorem parseStrBody_esc34 (t : List Nat) :
    parseStrBody (92 :: 34 :: t)
      = (parseStrBody t).map (fun p => (34 :: p.1, p.2)) := rfl

theorem parseStrBody_esc92 (t : List Nat) :
    parseStrBody (92 :: 92 :: t)
      = (parseStrBody t).map (fun p => (92 :: p.1, p.2)) := rfl

theorem parseStrBody_escU (h1 h2 h3 h4 d1 d2 d3 d4 : Nat) (t : List Nat)
    (e1 : parseHexDigit h1 = some d1) (e2 : parseHexDigit h2 = some d2)
    (e3 : parseHexDigit h3 = some d3) (e4 : parseHexDigit h4 = some d4) :
    parseStrBody (92 :: 117 :: h1 :: h2 :: h3 :: h4 :: t)
      = (parseStrBody t).map
          (fun p => ((((d1 * 16 + d2) * 16 + d3) * 16 + d4) :: p.1, p.2)) := by
  simp only [parseStrBody, e1, e2, e3, e4]
  norm_num

theorem parseStrBody_lit (c : Nat) (h34 : c ≠ 34) (h92 : c ≠ 92)
    (hlo : 32 ≤ c) (hhi : c < 256) (t : List Nat) :
    parseStrBody (c :: t)
      = (parseStrBody t).map (fun p => (c :: p.1, p.2)) := by
  rw [parseStrBody_cons, if_neg h34, if_neg h92, if_neg]
  simp only [Bool.or_eq_true, decide_eq_true_eq, not_or, not_lt, not_le]
  omega

theorem parseStrBody_enc {s : List Nat} (hs : strOkB s = true) (rest : List Nat) :
    parseStrBody (encStrBody s ++ 34 :: rest) = some (s, rest) := by
  induction s with
  | nil =>
    rw [show encStrBody [] ++ 34 :: rest = 34 :: rest from rfl,
      parseStrBody_cons]
    norm_num
  | cons c cs ih =>
    have hok : c < 65536 ∧ strOkB cs = true := by
      simpa [strOkB, List.all_cons] using hs
    have hstep := ih hok.2
    rw [encStrBody_cons, List.append_assoc]
    by_cases h34 : c = 34
    · subst h34
      rw [show encodeStrChar 34 = [92, 34] from rfl]
      rw [show ([92, 34] : List Nat) ++ (encStrBody cs ++ 34 :: rest)
            = 92 :: 34 :: (encStrBody cs ++ 34 :: rest) from rfl]
      rw [parseStrBody_esc34, hstep]
      rfl
    · by_cases h92 : c = 92
      · subst h92
        rw [show encodeStrChar 92 = [92, 92] from rfl]
        rw [show ([92, 92] : List Nat) ++ (encStrBody cs ++ 34 :: rest)
              = 92 :: 92 :: (encStrBody cs ++ 34 :: rest) from rfl]
        rw [parseStrBody_esc92, hstep]
        rfl
      · by_cases hU : c < 32 ∨ 127 ≤ c
        · rw [show encodeStrChar c
                = [92, 117, hexDigitChar (c / 4096 % 16),
                   hexDigitChar (c / 256 % 16), hexDigitChar (c / 16 % 16),
                   hexDigitChar (c % 16)] from by
              simp only [encodeStrChar, if_neg h34, if_neg h92]
              rw [if_pos]
              simpa using hU]
          rw [show ([92, 117, hexDigitChar (c / 4096 % 16),
                hexDigitChar (c / 256 % 16), hexDigitChar (c / 16 % 16),
                hexDigitChar (c % 16)] : List Nat)
                ++ (encStrBody cs ++ 34 :: rest)
              = 92 :: 117 :: hexDigitChar (c / 4096 % 16)
                :: hexDigitChar (c / 256 % 16) :: hexDigitChar (c / 16 % 16)
                :: hexDigitChar (c % 16) :: (encStrBody cs ++ 34 :: rest)
            from rfl]
          rw [parseStrBody_escU _ _ _ _ _ _ _ _ _
              (parseHex_hexDigitChar (by omega))
              (parseHex_hexDigitChar (by omega))
              (parseHex_hexDigitChar (by omega))
              (parseHex_hexDigitChar (by omega))]
          rw [hstep]
          have hval : (((c / 4096 % 16 * 16 + c / 256 % 16) * 16
              + c / 16 % 16) * 16 + c % 16) = c := by omega
          simp [hval]
        · push_neg at hU
          rw [show encodeStrChar c = [c] from by
              simp only [encodeStrChar, if_neg h34, if_neg h92]
              rw [if_neg]
              simp only [Bool.or_eq_true, decide_eq_true_eq, not_or, not_lt,
                not_le]
              omega]
          rw [show ([c] : List Nat) ++ (encStrBody cs ++ 34 :: rest)
                = c :: (encStrBody cs ++ 34 :: rest) from rfl]
          rw [parseStrBody_lit c h34 h92 (by omega) (by omega), hstep]
          rfl

def headNotDigit : List Nat → Bool
  | [] => true
  | c :: _ => !isDigitB c

theorem spanDigits_cons (c : Nat) (t : List Nat) :
    spanDigits (c :: t)
      = if isDigitB c then ((c :: (spanDigits t).1), (spanDigits t).2)
        else ([], c :: t) := rfl

theorem spanDigits_all (l : List Nat) :
    (spanDigits l).1.all isDigitB = true := by
  induction l with
  | nil => rfl
  | cons c t ih =>
    rw [spanDigits_cons]
    by_cases h : isDigitB c = true
    · rw [if_pos h]
      simp [List.all_cons, h, ih]
    · rw [if_neg h]
      rfl

theorem spanDigits_append {ds : List Nat} (hds : ds.all isDigitB = true)
    {t : List Nat} (ht : headNotDigit t = true) :
    spanDigits (ds ++ t) = (ds, t) := by
  induction ds with
  | nil =>
    match t, ht with
    | [], _ => rfl
    | c :: t2, ht =>
      have hc : isDigitB c = false := by
        simpa [headNotDigit] using ht
      rw [List.nil_append, spanDigits_cons, if_neg]
      rw [hc]
      simp
  | cons d ds2 ih =>
    have hd : isDigitB d = true ∧ ds2.all isDigitB = true := by
      simpa [List.all_cons] using hds
    rw [List.cons_append, spanDigits_cons, if_pos]
    · rw [ih hd.2]
    · rw [hd.1]

theorem parseIntPart_nil : parseIntPart [] = none := rfl

theorem parseIntPart_cons (c : Nat) (t : List Nat) :
    parseIntPart (c :: t)
      = if c = 48 then some ([48], t)
        else if 49 ≤ c && c ≤ 57 then
          some (c :: (spanDigits t).1, (spanDigits t).2)
        else none := rfl

theorem parseIntPart_head {l ip r : List Nat}
    (h : parseIntPart l = some (ip, r)) :
    ∃ c ds, ip = c :: ds ∧ 48 ≤ c ∧ c ≤ 57 := by
  match l with
  | [] => exact absurd h (by rw [parseIntPart_nil]; exact fun h => by cases h)
  | c :: t =>
    rw [parseIntPart_cons] at h
    by_cases h48 : c = 48
    · rw [if_pos h48] at h
      cases h
      exact ⟨48, [], rfl, by omega, by omega⟩
    · rw [if_neg h48] at h
      by_cases h19 : (49 ≤ c && c ≤ 57) = true
      · rw [if_pos h19] at h
        cases h
        have : 49 ≤ c ∧ c ≤ 57 := by simpa using h19
        exact ⟨c, (spanDigits t).1, rfl, by omega, by omega⟩
      · rw [if_neg h19] at h
        cases h

theorem parseIntPart_ext {l ip r : List Nat}
    (h : parseIntPart l = some (ip, r)) {t : List Nat}
    (ht : headNotDigit t = true) :
    parseIntPart (ip ++ t) = some (ip, t) := by
  match l with
  | [] => exact absurd h (by rw [parseIntPart_nil]; exact fun h => by cases h)
  | c :: l2 =>
    rw [parseIntPart_cons] at h
    by_cases h48 : c = 48
    · rw [if_pos h48] at h
      cases h
      rw [show ([48] : List Nat) ++ t = 48 :: t from rfl, parseIntPart_cons,
        if_pos rfl]
    · rw [if_neg h48] at h
      by_cases h19 : (49 ≤ c && c ≤ 57) = true
      · rw [if_pos h19] at h
        cases h
        have hc : 49 ≤ c ∧ c ≤ 57 := by simpa using h19
        rw [List.cons_append, parseIntPart_cons, if_neg (by omega), if_pos h19,
          spanDigits_append (spanDigits_all l2) ht]
      · rw [if_neg h19] at h
        cases h

def headNot46 : List Nat → Bool
  | [] => true
  | c :: _ => !(c == 46)

def headNotE : List Nat → Bool
  | [] => true
  | c :: _ => !(c == 101 || c == 69)

theorem parseFrac_not46 {l : List Nat} (h : headNot46 l = true) :
    parseFrac l = ([], l) := by
  match l, h with
  | [], _ => rfl
  | c :: t, h =>
    have hc : c ≠ 46 := by
      simpa [headNot46] using h
    rw [parseFrac.eq_def]
    split
    · next rest heq =>
      exact absurd (by cases heq; rfl) hc
    · rfl

theorem parseFrac_digits {ds : List Nat} (hne : ds ≠ [])
    (hds : ds.all isDigitB = true) {t : List Nat}
    (ht : headNotDigit t = true) :
    parseFrac (46 :: (ds ++ t)) = (46 :: ds, t) := by
  match ds, hne with
  | d :: ds2, _ =>
    show (match spanDigits ((d :: ds2) ++ t) with
      | ([], _) => ([], 46 :: ((d :: ds2) ++ t))
      | (ds3, rest2) => (46 :: ds3, rest2)) = (46 :: d :: ds2, t)
    rw [spanDigits_append hds ht]

theorem parseExp_notE {l : List Nat} (h : headNotE l = true) :
    parseExp l = ([], l) := by
  match l, h with
  | [], _ => rfl
  | c :: t, h =>
    have hc : (decide (c = 101) || decide (c = 69)) = false := by
      simpa [headNotE] using h
    simp only [parseExp]
    rw [if_neg]
    rw [hc]
    simp

theorem parseExp_digits_nosign {e : Nat} (he : e = 101 ∨ e = 69) {d : Nat}
    {ds2 : List Nat} (hds : (d :: ds2).all isDigitB = true) {t : List Nat}
    (ht : headNotDigit t = true) :
    parseExp (e :: ((d :: ds2) ++ t)) = (e :: d :: ds2, t) := by
  have hd : 48 ≤ d ∧ d ≤ 57 := by
    have := hds
    simp [List.all_cons, isDigitB] at this
    omega
  have hd45 : (decide (d = 43) || decide (d = 45)) = false := by
    simp
    omega
  have hspan : spanDigits (d :: (ds2 ++ t)) = (d :: ds2, t) := by
    rw [← List.cons_append]
    exact spanDigits_append hds ht
  rcases he with rfl | rfl <;> simp [parseExp, List.cons_append, hd45, hspan]

theorem parseExp_digits_sign {e s : Nat} (he : e = 101 ∨ e = 69)
    (hs : s = 43 ∨ s = 45) {d : Nat} {ds2 : List Nat}
    (hds : (d :: ds2).all isDigitB = true) {t : List Nat}
    (ht : headNotDigit t = true) :
    parseExp (e :: s :: ((d :: ds2) ++ t)) = (e :: s :: d :: ds2, t) := by
  have hspan : spanDigits (d :: (ds2 ++ t)) = (d :: ds2, t) := by
    rw [← List.cons_append]
    exact spanDigits_append hds ht
  rcases he with rfl | rfl <;> rcases hs with rfl | rfl <;>
    simp [parseExp, List.cons_append, hspan]

theorem parseFrac_inv {l fr r : List Nat} (h : parseFrac l = (fr, r)) :
    fr = [] ∨ ∃ ds, fr = 46 :: ds ∧ ds ≠ [] ∧ ds.all isDigitB = true := by
  match l with
  | [] =>
    rw [parseFrac_not46 (show headNot46 [] = true from rfl)] at h
    cases h
    left
    rfl
  | c :: rest =>
    by_cases hc : c = 46
    · subst hc
      simp only [parseFrac] at h
      rcases hsd : spanDigits rest with ⟨a, b⟩
      rw [hsd] at h
      match a, h with
      | [], h =>
        left
        cases h
        rfl
      | d :: ds2, h =>
        right
        cases h
        have hall := spanDigits_all rest
        rw [hsd] at hall
        exact ⟨d :: ds2, rfl, by simp, hall⟩
    · rw [parseFrac_not46 (by simp [headNot46, hc])] at h
      cases h
      left
      rfl

theorem parseExp_inv {l ex r : List Nat} (h : parseExp l = (ex, r)) :
    ex = []
      ∨ (∃ e d ds2, ex = e :: d :: ds2 ∧ (e = 101 ∨ e = 69)
          ∧ (d :: ds2).all isDigitB = true)
      ∨ (∃ e s d ds2, ex = e :: s :: d :: ds2 ∧ (e = 101 ∨ e = 69)
          ∧ (s = 43 ∨ s = 45) ∧ (d :: ds2).all isDigitB = true) := by
  match l with
  | [] =>
    left
    cases h
    rfl
  | c :: rest =>
    simp only [parseExp] at h
    by_cases hE : (decide (c = 101) || decide (c = 69)) = true
    · rw [if_pos hE] at h
      have he : c = 101 ∨ c = 69 := by
        simpa using hE
      match rest, h with
      | [], h =>
        left
        cases h
        rfl
      | s :: rest2, h =>
        dsimp only at h
        by_cases hs : (decide (s = 43) || decide (s = 45)) = true
        · rw [if_pos hs] at h
          rcases hsd : spanDigits rest2 with ⟨a, b⟩
          rw [hsd] at h
          match a, h with
          | [], h =>
            left
            cases h
            rfl
          | d :: ds2, h =>
            right
            right
            cases h
            have hall := spanDigits_all rest2
            rw [hsd] at hall
            exact ⟨c, s, d, ds2, rfl, he, by simpa using hs, hall⟩
        · rw [if_neg hs] at h
          rcases hsd : spanDigits (s :: rest2) with ⟨a, b⟩
          rw [hsd] at h
          match a, h with
          | [], h =>
            left
            cases h
            rfl
          | d :: ds2, h =>
            right
            left
            cases h
            have hall := spanDigits_all (s :: rest2)
            rw [hsd] at hall
            exact ⟨c, d, ds2, rfl, he, hall⟩
    · rw [if_neg hE] at h
      left
      cases h
      rfl

def headNot45 : List Nat → Bool
  | [] => true
  | c :: _ => !(c == 45)

theorem numSafe_heads {t : List Nat} (ht : numSafe t) :
    headNotDigit t = true ∧ headNot46 t = true ∧ headNotE t = true := by
  match t, ht with
  | [], _ => exact ⟨rfl, rfl, rfl⟩
  | c :: t2, ht =>
    have hc : isNumCont c = false := ht
    simp only [isNumCont, Bool.or_eq_false_iff, decide_eq_false_iff_not] at hc
    refine ⟨?_, ?_, ?_⟩ <;>
      simp [headNotDigit, headNot46, headNotE, hc.1.1.1, hc.1.1.2, hc.1.2,
        hc.2]

theorem parseNumCore_ext {l lex r : List Nat}
    (h : parseNumCore l = some (lex, r)) {t : List Nat} (ht : numSafe t) :
    parseNumCore (lex ++ t) = some (lex, t) := by
  obtain ⟨htD, ht46, htE⟩ := numSafe_heads ht
  rcases hip : parseIntPart l with _ | ⟨⟨ip, r1⟩⟩
  · rw [parseNumCore, hip] at h
    cases h
  · rw [parseNumCore, hip] at h
    simp only [Option.map] at h
    rcases hfr : parseFrac r1 with ⟨fr, r2⟩
    rw [hfr] at h
    rcases hex : parseExp r2 with ⟨ex, rem⟩
    rw [hex] at h
    cases h
    have frS := parseFrac_inv hfr
    have exS := parseExp_inv hex
    have hexD : headNotDigit (ex ++ t) = true := by
      rcases exS with rfl | ⟨e, d, ds2, rfl, he, _⟩ | ⟨e, s, d, ds2, rfl, he, _, _⟩
      · simpa using htD
      · rcases he with rfl | rfl <;> rfl
      · rcases he with rfl | rfl <;> rfl
    have hex46 : headNot46 (ex ++ t) = true := by
      rcases exS with rfl | ⟨e, d, ds2, rfl, he, _⟩ | ⟨e, s, d, ds2, rfl, he, _, _⟩
      · simpa using ht46
      · rcases he with rfl | rfl <;> rfl
      · rcases he with rfl | rfl <;> rfl
    have hfrD : headNotDigit (fr ++ (ex ++ t)) = true := by
      rcases frS with rfl | ⟨ds, rfl, _, _⟩
      · simpa using hexD
      · rfl
    have hfr2 : parseFrac (fr ++ (ex ++ t)) = (fr, ex ++ t) := by
      rcases frS with rfl | ⟨ds, rfl, hne, hds⟩
      · rw [List.nil_append]
        exact parseFrac_not46 hex46
      · rw [List.cons_append]
        exact parseFrac_digits hne hds hexD
    have hex2 : parseExp (ex ++ t) = (ex, t) := by
      rcases exS with rfl | ⟨e, d, ds2, rfl, he, hds⟩ | ⟨e, s, d, ds2, rfl, he, hs, hds⟩
      · rw [List.nil_append]
        exact parseExp_notE htE
      · rw [List.cons_append]
        exact parseExp_digits_nosign he hds htD
      · rw [List.cons_append, List.cons_append]
        exact parseExp_digits_sign he hs hds htD
    have hassoc : (ip ++ fr ++ ex) ++ t = ip ++ (fr ++ (ex ++ t)) := by
      simp [List.append_assoc]
    rw [hassoc, parseNumCore, parseIntPart_ext hip hfrD]
    simp only [Option.map, hfr2, hex2]

theorem parseNumCore_head {l lex r : List Nat}
    (h : parseNumCore l = some (lex, r)) :
    ∃ c ds, lex = c :: ds ∧ 48 ≤ c ∧ c ≤ 57 := by
  rcases hip : parseIntPart l with _ | ⟨⟨ip, r1⟩⟩
  · rw [parseNumCore, hip] at h
    cases h
  · rw [parseNumCore, hip] at h
    simp only [Option.map] at h
    rcases hfr : parseFrac r1 with ⟨fr, r2⟩
    rw [hfr] at h
    rcases hex : parseExp r2 with ⟨ex, rem⟩
    rw [hex] at h
    cases h
    obtain ⟨c, ds, hip2, hc1, hc2⟩ := parseIntPart_head hip
    exact ⟨c, ds ++ fr ++ ex, by simp [hip2, List.append_assoc], hc1, hc2⟩

theorem parseNum_cons45 (t : List Nat) :
    parseNum (45 :: t)
      = (parseNumCore t).map (fun p => (45 :: p.1, p.2)) := rfl

theorem parseNum_notdash {l : List Nat} (h : headNot45 l = true) :
    parseNum l = parseNumCore l := by
  match l, h with
  | [], _ => rfl
  | c :: t, h =>
    have hc : c ≠ 45 := by
      simpa [headNot45] using h
    rw [parseNum.eq_def]
    split
    · next rest heq =>
      exact absurd (by cases heq; rfl) hc
    · rfl

theorem parseNum_ext {l lex r : List Nat} (h : parseNum l = some (lex, r))
    {t : List Nat} (ht : numSafe t) :
    parseNum (lex ++ t) = some (lex, t) := by
  rw [parseNum.eq_def] at h
  split at h
  · next rest =>
    rcases hc : parseNumCore rest with _ | ⟨⟨lex0, r0⟩⟩
    · rw [hc] at h
      cases h
    · rw [hc] at h
      simp only [Option.map] at h
      cases h
      have hcore := parseNumCore_ext hc ht
      rw [List.cons_append, parseNum_cons45, hcore]
      rfl
  · obtain ⟨c, ds, hlex, hc1, hc2⟩ := parseNumCore_head h
    rw [parseNum_notdash (by
      rw [hlex, List.cons_append]
      simp [headNot45]
      omega)]
    exact parseNumCore_ext h ht

theorem parseNum_selfparse {l lex r : List Nat}
    (h : parseNum l = some (lex, r)) : parseNum lex = some (lex, []) := by
  have := parseNum_ext h (t := []) trivial
  simpa using this

theorem parseHexDigit_lt {c d : Nat} (h : parseHexDigit c = some d) :
    d < 16 := by
  simp only [parseHexDigit] at h
  split_ifs at h with h1 h2 h3 <;> first
  | (cases h
     simp at h1 h2 h3 <;> omega)
  | (cases h
     simp at h1 h2 <;> omega)
  | (cases h
     simp at h1 <;> omega)
  | cases h

theorem escChar_lt {e i : Nat} (h : escChar e = some i) : i < 65536 := by
  simp only [escChar] at h
  split_ifs at h <;> (try cases h) <;> omega

theorem parseStrBody_escOther {e : Nat} (he : e ≠ 117) (rest2 : List Nat) :
    parseStrBody (92 :: e :: rest2)
      = match escChar e with
        | some ec => (parseStrBody rest2).map (fun p => (ec :: p.1, p.2))
        | none => none := by
  rw [parseStrBody_cons]
  norm_num
  split
  · next h1 h2 h3 h4 rest2m heq =>
    exact absurd (by cases heq; rfl : e = 117) he
  · next em rest2m heq =>
    cases heq
    rfl
  · next heq =>
    cases heq

theorem parseStrBody_wf :
    ∀ {l s rest : List Nat}, parseStrBody l = some (s, rest)
      → strOkB s = true := by
  intro l
  induction l using parseStrBody.induct with
  | case1 =>
    intro s rest h
    exact Option.noConfusion h
  | case2 rest' =>
    intro s rest h
    rw [parseStrBody_cons] at h
    norm_num at h
    rw [h.1]
    rfl
  | case3 h1 h2 h3 h4 rest2 d1 d2 d3 d4 e4 e3 e2 e1 hne ih =>
    intro s rest h
    rw [parseStrBody_escU h1 h2 h3 h4 d1 d2 d3 d4 rest2 e1 e2 e3 e4] at h
    rcases hps : parseStrBody rest2 with _ | ⟨⟨s2, r2⟩⟩
    · rw [hps] at h
      cases h
    · rw [hps] at h
      simp only [Option.map] at h
      cases h
      have hd1 := parseHexDigit_lt e1
      have hd2 := parseHexDigit_lt e2
      have hd3 := parseHexDigit_lt e3
      have hd4 := parseHexDigit_lt e4
      have hs2 := ih hps
      simp only [strOkB, List.all_cons, Bool.and_eq_true, decide_eq_true_eq]
      exact ⟨by omega, by simpa [strOkB] using hs2⟩
  | case4 h1 h2 h3 h4 rest2 hfail hne =>
    intro s rest h
    rw [parseStrBody_cons] at h
    norm_num at h
    rcases hd1 : parseHexDigit h1 with _ | d1 <;> rw [hd1] at h
    · cases h
    · rcases hd2 : parseHexDigit h2 with _ | d2 <;> rw [hd2] at h
      · cases h
      · rcases hd3 : parseHexDigit h3 with _ | d3 <;> rw [hd3] at h
        · cases h
        · rcases hd4 : parseHexDigit h4 with _ | d4 <;> rw [hd4] at h
          · cases h
          · exact absurd (hfail d1 d2 d3 d4 hd1 hd2 hd3 hd4) (by simp)
  | case5 e rest2 hshape i hesc hne ih =>
    intro s rest h
    by_cases he117 : e = 117
    · subst he117
      exact Option.noConfusion hesc
    · rw [parseStrBody_escOther he117, hesc] at h
      dsimp only at h
      rcases hps : parseStrBody rest2 with _ | ⟨⟨s2, r2⟩⟩
      · rw [hps] at h
        cases h
      · rw [hps] at h
        simp only [Option.map] at h
        cases h
        have hi := escChar_lt hesc
        have hs2 := ih hps
        simp only [strOkB, List.all_cons, Bool.and_eq_true, decide_eq_true_eq]
        exact ⟨hi, by simpa [strOkB] using hs2⟩
  | case6 e rest2 hshape hesc hne =>
    intro s rest h
    by_cases he117 : e = 117
    · subst he117
      rcases rest2 with _ | ⟨a, _ | ⟨b, _ | ⟨c, _ | ⟨d, r5⟩⟩⟩⟩
      · exact Option.noConfusion h
      · exact Option.noConfusion h
      · exact Option.noConfusion h
      · exact Option.noConfusion h
      · exact absurd (hshape a b c d r5 rfl rfl) (by simp)
    · rw [parseStrBody_escOther he117, hesc] at h
      exact Option.noConfusion h
  | case7 hne =>
    intro s rest h
    exact Option.noConfusion h
  | case8 c rest' h34 h92 hguard =>
    intro s rest h
    rw [parseStrBody_cons, if_neg h34, if_neg h92, if_pos hguard] at h
    cases h
  | case9 c rest' h34 h92 hguard ih =>
    intro s rest h
    rw [parseStrBody_cons, if_neg h34, if_neg h92, if_neg hguard] at h
    rcases hps : parseStrBody rest' with _ | ⟨⟨s2, r2⟩⟩
    · rw [hps] at h
      cases h
    · rw [hps] at h
      simp only [Option.map] at h
      cases h
      have hc : c < 256 := by
        simp only [Bool.or_eq_true, decide_eq_true_eq, not_or, not_lt,
          not_le] at hguard
        omega
      have hs2 := ih hps
      simp only [strOkB, List.all_cons, Bool.and_eq_true, decide_eq_true_eq]
      exact ⟨by omega, by simpa [strOkB] using hs2⟩

def objKeysDisjointB (acc : JsonObj) : JsonObj → Bool
  | .nil => true
  | .cons k _ tl => !objHasKey acc k && objKeysDisjointB acc tl

theorem objHasKey_objInsert :
    ∀ (acc : JsonObj) (k : List Nat) (v : Json) (key : List Nat),
      objHasKey (objInsert acc k v) key
        = (objHasKey acc key || decide (k = key))
  | .nil, k, v, key => by simp [objInsert, objHasKey]
  | .cons k0 v0 tl, k, v, key => by
    by_cases h : k0 = k
    · subst h
      rw [show objInsert (JsonObj.cons k0 v0 tl) k0 v
            = JsonObj.cons k0 v tl from by simp [objInsert]]
      by_cases hk : k0 = key <;> simp [objHasKey, hk]
    · rw [show objInsert (JsonObj.cons k0 v0 tl) k v
            = JsonObj.cons k0 v0 (objInsert tl k v) from by
          simp [objInsert, h]]
      simp [objHasKey, objHasKey_objInsert tl k v key, Bool.or_assoc]

theorem wfO_objInsert :
    ∀ {acc : JsonObj}, wfO acc → ∀ {k : List Nat}, strOkB k = true
      → ∀ {v : Json}, wfV v → wfO (objInsert acc k v)
  | .nil, _, k, hk, v, hv => ⟨hk, rfl, hv, trivial⟩
  | .cons k0 v0 tl, hacc, k, hk, v, hv => by
    obtain ⟨hk0, hnk, hv0, htl⟩ := hacc
    by_cases h : k0 = k
    · subst h
      rw [show objInsert (JsonObj.cons k0 v0 tl) k0 v
            = JsonObj.cons k0 v tl from by simp [objInsert]]
      exact ⟨hk0, hnk, hv, htl⟩
    · rw [show objInsert (JsonObj.cons k0 v0 tl) k v
            = JsonObj.cons k0 v0 (objInsert tl k v) from by
          simp [objInsert, h]]
      refine ⟨hk0, ?_, hv0, wfO_objInsert htl hk hv⟩
      rw [objHasKey_objInsert, hnk]
      simp
      exact fun hkk => h hkk.symm

theorem objLookup_wf :
    ∀ {xs : JsonObj}, wfO xs → ∀ {key : List Nat} {v : Json},
      objLookup xs key = some v → wfV v
  | .nil, _, _, _, h => Option.noConfusion h
  | .cons k0 v0 tl, hxs, key, v, h => by
    obtain ⟨_, _, hv0, htl⟩ := hxs
    by_cases hk : k0 = key
    · rw [show objLookup (JsonObj.cons k0 v0 tl) key = some v0 from by
        simp [objLookup, hk]] at h
      cases h
      exact hv0
    · rw [show objLookup (JsonObj.cons k0 v0 tl) key = objLookup tl key from by
        simp [objLookup, hk]] at h
      exact objLookup_wf htl h

theorem objInsert_disjoint :
    ∀ {acc : JsonObj} {k : List Nat}, objHasKey acc k = false → ∀ (v : Json),
      objInsert acc k v = objAppend acc (JsonObj.cons k v JsonObj.nil)
  | .nil, k, _, v => rfl
  | .cons k0 v0 tl, k, h, v => by
    have hx : (decide (k0 = k) || objHasKey tl k) = false := h
    simp only [Bool.or_eq_false_iff, decide_eq_false_iff_not] at hx
    rw [show objInsert (JsonObj.cons k0 v0 tl) k v
          = JsonObj.cons k0 v0 (objInsert tl k v) from by
        simp [objInsert, hx.1]]
    rw [objInsert_disjoint hx.2 v]
    rfl

theorem objAppend_cons_mid :
    ∀ (acc : JsonObj) (k : List Nat) (v : Json) (xs : JsonObj),
      objAppend (objAppend acc (JsonObj.cons k v JsonObj.nil)) xs
        = objAppend acc (JsonObj.cons k v xs)
  | .nil, k, v, xs => rfl
  | .cons k0 v0 tl, k, v, xs => by
    simp [objAppend, objAppend_cons_mid tl k v xs]

theorem objKeysDisjointB_objInsert :
    ∀ {tl acc : JsonObj} {k : List Nat} (v : Json),
      objKeysDisjointB acc tl = true → objHasKey tl k = false
      → objKeysDisjointB (objInsert acc k v) tl = true
  | .nil, acc, k, v, _, _ => rfl
  | .cons k2 v2 tl2, acc, k, v, hdis, hk => by
    have hd : (!objHasKey acc k2 && objKeysDisjointB acc tl2) = true := hdis
    simp only [Bool.and_eq_true, Bool.not_eq_true'] at hd
    have hkk : (decide (k2 = k) || objHasKey tl2 k) = false := hk
    simp only [Bool.or_eq_false_iff, decide_eq_false_iff_not] at hkk
    show (!objHasKey (objInsert acc k v) k2
      && objKeysDisjointB (objInsert acc k v) tl2) = true
    rw [objHasKey_objInsert, hd.1, objKeysDisjointB_objInsert v hd.2 hkk.2]
    simp
    exact fun hkk2 => hkk.1 hkk2.symm

theorem parse_wf : ∀ (f : Nat),
    (∀ bs v rest, parseVal f bs = some (v, rest) → wfV v)
    ∧ (∀ acc bs v rest, wfO acc → parseMembers f acc bs = some (v, rest)
        → wfV v)
    ∧ (∀ bs a rest, parseElems f bs = some (a, rest) → wfA a) := by
  intro f
  induction f with
  | zero =>
    refine ⟨fun bs v rest h => ?_, fun acc bs v rest _ h => ?_,
      fun bs a rest h => ?_⟩ <;> exact Option.noConfusion h
  | succ f ih =>
    obtain ⟨ihV, ihM, ihE⟩ := ih
    refine ⟨fun bs v rest h => ?_, fun acc bs v rest hacc h => ?_,
      fun bs a rest h => ?_⟩
    · simp only [parseVal] at h
      rcases hsw : skipWs bs with _ | ⟨c, rest1⟩ <;> rw [hsw] at h
      · exact Option.noConfusion h
      dsimp only at h
      by_cases h34 : c = 34
      · rw [if_pos h34] at h
        rcases hps : parseStrBody rest1 with _ | ⟨⟨s, r⟩⟩ <;> rw [hps] at h
        · exact Option.noConfusion h
        · simp only [Option.map] at h
          cases h
          exact parseStrBody_wf hps
      rw [if_neg h34] at h
      by_cases h123 : c = 123
      · rw [if_pos h123] at h
        rcases hsw2 : skipWs rest1 with _ | ⟨c2, r2⟩ <;> rw [hsw2] at h
        · exact ihM JsonObj.nil [] v rest trivial h
        · split at h
          · next rest2 heq =>
            cases h
            exact trivial
          · exact ihM JsonObj.nil (c2 :: r2) v rest trivial h
      rw [if_neg h123] at h
      by_cases h91 : c = 91
      · rw [if_pos h91] at h
        rcases hsw2 : skipWs rest1 with _ | ⟨c2, r2⟩ <;> rw [hsw2] at h
        · dsimp only at h
          rcases hpe : parseElems f [] with _ | ⟨⟨a2, r3⟩⟩ <;> rw [hpe] at h
          · exact Option.noConfusion h
          · simp only [Option.map] at h
            cases h
            exact ihE [] a2 rest hpe
        · split at h
          · next rest2 heq =>
            cases h
            exact trivial
          · rcases hpe : parseElems f (c2 :: r2) with _ | ⟨⟨a2, r3⟩⟩ <;>
              rw [hpe] at h
            · exact Option.noConfusion h
            · simp only [Option.map] at h
              cases h
              exact ihE (c2 :: r2) a2 rest hpe
      rw [if_neg h91] at h
      by_cases h116 : c = 116
      · rw [if_pos h116] at h
        split at h
        · next rest2 heq =>
          cases h
          exact trivial
        · exact Option.noConfusion h
      rw [if_neg h116] at h
      by_cases h102 : c = 102
      · rw [if_pos h102] at h
        split at h
        · next rest2 heq =>
          cases h
          exact trivial
        · exact Option.noConfusion h
      rw [if_neg h102] at h
      by_cases h110 : c = 110
      · rw [if_pos h110] at h
        split at h
        · next rest2 heq =>
          cases h
          exact trivial
        · exact Option.noConfusion h
      rw [if_neg h110] at h
      rcases hpn : parseNum (c :: rest1) with _ | ⟨⟨lex, r⟩⟩ <;> rw [hpn] at h
      · exact Option.noConfusion h
      · simp only [Option.map] at h
        cases h
        exact parseNum_selfparse hpn
    · simp only [parseMembers] at h
      rcases hsw : skipWs bs with _ | ⟨c, r1⟩ <;> rw [hsw] at h
      · exact Option.noConfusion h
      dsimp only at h
      by_cases h34 : c = 34
      · rw [if_pos h34] at h
        rcases hps : parseStrBody r1 with _ | ⟨⟨k, r2⟩⟩ <;> rw [hps] at h
        · exact Option.noConfusion h
        dsimp only at h
        have hk := parseStrBody_wf hps
        rcases hsw2 : skipWs r2 with _ | ⟨c2, r3⟩ <;> rw [hsw2] at h
        · exact Option.noConfusion h
        dsimp only at h
        by_cases h58 : c2 = 58
        · rw [if_pos h58] at h
          rcases hpv : parseVal f r3 with _ | ⟨⟨v2, r4⟩⟩ <;> rw [hpv] at h
          · exact Option.noConfusion h
          dsimp only at h
          have hv2 := ihV r3 v2 r4 hpv
          rcases hsw3 : skipWs r4 with _ | ⟨c3, r5⟩ <;> rw [hsw3] at h
          · exact Option.noConfusion h
          dsimp only at h
          by_cases h44 : c3 = 44
          · rw [if_pos h44] at h
            exact ihM (objInsert acc k v2) r5 v rest
              (wfO_objInsert hacc hk hv2) h
          rw [if_neg h44] at h
          by_cases h125 : c3 = 125
          · rw [if_pos h125] at h
            cases h
            exact wfO_objInsert hacc hk hv2
          · rw [if_neg h125] at h
            exact Option.noConfusion h
        · rw [if_neg h58] at h
          exact Option.noConfusion h
      · rw [if_neg h34] at h
        exact Option.noConfusion h
    · simp only [parseElems] at h
      rcases hpv : parseVal f bs with _ | ⟨⟨v2, r1⟩⟩ <;> rw [hpv] at h
      · exact Option.noConfusion h
      dsimp only at h
      have hv2 := ihV bs v2 r1 hpv
      rcases hsw : skipWs r1 with _ | ⟨c, r2⟩ <;> rw [hsw] at h
      · exact Option.noConfusion h
      dsimp only at h
      by_cases h44 : c = 44
      · rw [if_pos h44] at h
        rcases hpe : parseElems f r2 with _ | ⟨⟨tl, r3⟩⟩ <;> rw [hpe] at h
        · exact Option.noConfusion h
        · dsimp only at h
          cases h
          exact ⟨hv2, ihE r2 tl rest hpe⟩
      rw [if_neg h44] at h
      by_cases h93 : c = 93
      · rw [if_pos h93] at h
        cases h
        exact ⟨hv2, trivial⟩
      · rw [if_neg h93] at h
        exact Option.noConfusion h

theorem skipWs_notWs {c : Nat} (h : isJWs c = false) (t : List Nat) :
    skipWs (c :: t) = c :: t := by
  simp [skipWs, List.dropWhile_cons, h]

theorem parseNum_head {l lex r : List Nat} (h : parseNum l = some (lex, r)) :
    ∃ c ds, lex = c :: ds ∧ (c = 45 ∨ (48 ≤ c ∧ c ≤ 57)) := by
  rw [parseNum.eq_def] at h
  split at h
  · next rest =>
    rcases hc : parseNumCore rest with _ | ⟨⟨lex0, r0⟩⟩ <;> rw [hc] at h
    · exact Option.noConfusion h
    · simp only [Option.map] at h
      cases h
      exact ⟨45, lex0, rfl, Or.inl rfl⟩
  · obtain ⟨c, ds, hlex, h1, h2⟩ := parseNumCore_head h
    exact ⟨c, ds, hlex, Or.inr ⟨h1, h2⟩⟩

theorem encVal_head {v : Json} (hv : wfV v) :
    ∃ c t, encVal v = c :: t ∧ isJWs c = false ∧ c ≠ 93 ∧ c ≠ 125 := by
  match v with
  | .null => exact ⟨110, _, rfl, rfl, by omega, by omega⟩
  | .bool true => exact ⟨116, _, rfl, rfl, by omega, by omega⟩
  | .bool false => exact ⟨102, _, rfl, rfl, by omega, by omega⟩
  | .str s => exact ⟨34, _, rfl, rfl, by omega, by omega⟩
  | .arr .nil => exact ⟨91, _, rfl, rfl, by omega, by omega⟩
  | .arr (.cons v2 tl) => exact ⟨91, _, rfl, rfl, by omega, by omega⟩
  | .obj .nil => exact ⟨123, _, rfl, rfl, by omega, by omega⟩
  | .obj (.cons k v2 tl) => exact ⟨123, _, rfl, rfl, by omega, by omega⟩
  | .num lex =>
    obtain ⟨c, ds, hlex, hc⟩ := parseNum_head (hv : parseNum lex = some (lex, []))
    refine ⟨c, ds, hlex, ?_, ?_, ?_⟩ <;>
      (rcases hc with rfl | ⟨h1, h2⟩
       · first
         | rfl
         | omega
       · simp [isJWs]
         omega)

theorem numSafe_tailE : ∀ (tl : JsonArr) (rest : List Nat),
    numSafe (encTailElems tl ++ 93 :: rest)
  | .nil, rest => by
    show isNumCont 93 = false
    rfl
  | .cons v tl2, rest => by
    show isNumCont 44 = false
    rfl

theorem numSafe_tailM : ∀ (tl : JsonObj) (rest : List Nat),
    numSafe (encTailMembers tl ++ 125 :: rest)
  | .nil, rest => by
    show isNumCont 125 = false
    rfl
  | .cons k v tl2, rest => by
    show isNumCont 44 = false
    rfl

theorem objKeysDisjointB_nil : ∀ (xs : JsonObj),
    objKeysDisjointB JsonObj.nil xs = true
  | .nil => rfl
  | .cons k v tl => by
    show (!objHasKey JsonObj.nil k && objKeysDisjointB JsonObj.nil tl) = true
    rw [objKeysDisjointB_nil tl]
    rfl

theorem parse_enc : ∀ (f : Nat),
    (∀ v rest, wfV v → (encVal v).length + 1 ≤ f → numSafe rest
      → parseVal f (encVal v ++ rest) = some (v, rest))
    ∧ (∀ v tl rest, wfV v → wfA tl
      → (encVal v).length + (encTailElems tl).length + 2 ≤ f → numSafe rest
      → parseElems f (encVal v ++ (encTailElems tl ++ 93 :: rest))
          = some (JsonArr.cons v tl, rest))
    ∧ (∀ acc k v tl rest, wfO (JsonObj.cons k v tl)
      → objKeysDisjointB acc (JsonObj.cons k v tl) = true
      → (encStr k).length + (encVal v).length + (encTailMembers tl).length + 3
          ≤ f
      → numSafe rest
      → parseMembers f acc
          (encStr k ++ 58 :: (encVal v ++ (encTailMembers tl ++ 125 :: rest)))
          = some (Json.obj (objAppend acc (JsonObj.cons k v tl)), rest)) := by
  intro f
  induction f with
  | zero =>
    refine ⟨fun v rest _ hf _ => ?_, fun v tl rest _ _ hf _ => ?_,
      fun acc k v tl rest _ _ hf _ => ?_⟩ <;> omega
  | succ f ih =>
    obtain ⟨ihV, ihE, ihM⟩ := ih
    refine ⟨fun v rest hv hf hrest => ?_, fun v tl rest hv htl hf hrest => ?_,
      fun acc k v tl rest hwf hdis hf hrest => ?_⟩
    · match v, hv with
      | .null, _ => rfl
      | .bool true, _ => rfl
      | .bool false, _ => rfl
      | .arr .nil, _ => rfl
      | .obj .nil, _ => rfl
      | .num lex, hv =>
        obtain ⟨c, ds, hlex, hc⟩ := parseNum_head (hv :
          parseNum lex = some (lex, []))
        subst hlex
        have hnotws : isJWs c = false := by
          rcases hc with rfl | ⟨h1, h2⟩
          · rfl
          · simp [isJWs]
            omega
        simp only [parseVal, encVal, List.cons_append]
        rw [skipWs_notWs hnotws]
        dsimp only
        rw [if_neg (by rcases hc with rfl | ⟨h1, h2⟩ <;> omega),
          if_neg (by rcases hc with rfl | ⟨h1, h2⟩ <;> omega),
          if_neg (by rcases hc with rfl | ⟨h1, h2⟩ <;> omega),
          if_neg (by rcases hc with rfl | ⟨h1, h2⟩ <;> omega),
          if_neg (by rcases hc with rfl | ⟨h1, h2⟩ <;> omega),
          if_neg (by rcases hc with rfl | ⟨h1, h2⟩ <;> omega)]
        rw [← List.cons_append, parseNum_ext hv hrest]
        rfl
      | .str s, hv =>
        rw [show encVal (Json.str s) ++ rest
            = 34 :: (encStrBody s ++ (34 :: rest)) from by
          simp [encVal, encStr, List.append_assoc]]
        simp only [parseVal]
        rw [skipWs_notWs (show isJWs 34 = false from rfl)]
        dsimp only
        rw [if_pos rfl, parseStrBody_enc hv]
        rfl
      | .arr (.cons v2 tl), hv =>
        obtain ⟨hv2, htl⟩ := (hv : wfV v2 ∧ wfA tl)
        rw [show encVal (Json.arr (JsonArr.cons v2 tl)) ++ rest
            = 91 :: (encVal v2 ++ (encTailElems tl ++ (93 :: rest))) from by
          simp [encVal, List.append_assoc]]
        simp only [parseVal]
        rw [skipWs_notWs (show isJWs 91 = false from rfl)]
        dsimp only
        rw [if_neg (by omega), if_neg (by omega), if_pos rfl]
        obtain ⟨c, t, hct, hws, h93, h125⟩ := encVal_head hv2
        rw [hct, List.cons_append, skipWs_notWs hws]
        split
        · next rest2 heq =>
          exact absurd (by cases heq; rfl : c = 93) h93
        · rw [← List.cons_append, ← hct]
          have hlen : (encVal v2).length = t.length + 1 := by
            rw [hct]
            rfl
          have hE := ihE v2 tl rest hv2 htl (by
            simp only [encVal, List.length_cons, List.length_append,
              List.length_singleton] at hf
            omega) hrest
          rw [hE]
          rfl
      | .obj (.cons k v2 tl), hv =>
        obtain ⟨hk, hnk, hv2, htl⟩ :=
          (hv : strOkB k = true ∧ objHasKey tl k = false ∧ wfV v2 ∧ wfO tl)
        rw [show encVal (Json.obj (JsonObj.cons k v2 tl)) ++ rest
            = 123 :: (encStr k
                ++ 58 :: (encVal v2 ++ (encTailMembers tl ++ 125 :: rest)))
            from by simp [encVal, List.append_assoc]]
        simp only [parseVal]
        rw [skipWs_notWs (show isJWs 123 = false from rfl)]
        dsimp only
        rw [if_neg (by omega), if_pos rfl]
        rw [show encStr k ++ 58 :: (encVal v2 ++ (encTailMembers tl
              ++ 125 :: rest))
            = 34 :: (encStrBody k ++ (34 :: (58 :: (encVal v2
                ++ (encTailMembers tl ++ 125 :: rest))))) from by
          simp [encStr, List.append_assoc]]
        rw [skipWs_notWs (show isJWs 34 = false from rfl)]
        split
        · next rest2 heq =>
          injection heq with h1 h2
          omega
        · rw [show (34 : Nat) :: (encStrBody k ++ (34 :: (58 :: (encVal v2
                ++ (encTailMembers tl ++ 125 :: rest)))))
              = encStr k ++ 58 :: (encVal v2
                  ++ (encTailMembers tl ++ 125 :: rest)) from by
            simp [encStr, List.append_assoc]]
          have hM := ihM JsonObj.nil k v2 tl rest ⟨hk, hnk, hv2, htl⟩
            (objKeysDisjointB_nil _) (by
              simp only [encVal, List.length_cons, List.length_append,
                List.length_singleton] at hf
              omega) hrest
          rw [hM]
          rfl
    · simp only [parseElems]
      have hV := ihV v (encTailElems tl ++ 93 :: rest) hv (by omega)
        (numSafe_tailE tl rest)
      rw [hV]
      dsimp only
      match tl, htl with
      | .nil, _ =>
        rw [show skipWs (encTailElems JsonArr.nil ++ 93 :: rest)
            = 93 :: rest from rfl]
        dsimp only
        rw [if_neg (by omega), if_pos rfl]
      | .cons v2 tl2, htl =>
        rw [show encTailElems (JsonArr.cons v2 tl2) ++ 93 :: rest
            = 44 :: (encVal v2 ++ (encTailElems tl2 ++ 93 :: rest)) from by
          simp [encTailElems, List.append_assoc]]
        rw [skipWs_notWs (show isJWs 44 = false from rfl)]
        dsimp only
        rw [if_pos rfl]
        obtain ⟨c, t, hct, _, _, _⟩ := encVal_head hv
        have hlen : (encVal v).length = t.length + 1 := by
          rw [hct]
          rfl
        have hE := ihE v2 tl2 rest htl.1 htl.2 (by
          simp only [encTailElems, List.length_cons, List.length_append]
            at hf
          omega) hrest
        rw [hE]
    · obtain ⟨hk, hnk, hv, htl⟩ := hwf
      have hacck : objHasKey acc k = false := by
        have hd : (!objHasKey acc k
            && objKeysDisjointB acc tl) = true := hdis
        simp only [Bool.and_eq_true, Bool.not_eq_true'] at hd
        exact hd.1
      simp only [parseMembers]
      rw [show encStr k ++ 58 :: (encVal v ++ (encTailMembers tl
            ++ 125 :: rest))
          = 34 :: (encStrBody k ++ (34 :: (58 :: (encVal v
              ++ (encTailMembers tl ++ 125 :: rest))))) from by
        simp [encStr, List.append_assoc]]
      rw [skipWs_notWs (show isJWs 34 = false from rfl)]
      dsimp only
      rw [if_pos rfl, parseStrBody_enc hk]
      dsimp only
      rw [skipWs_notWs (show isJWs 58 = false from rfl)]
      dsimp only
      rw [if_pos rfl]
      have hV := ihV v (encTailMembers tl ++ 125 :: rest) hv (by
        simp only [encStr, List.length_cons, List.length_append,
          List.length_singleton] at hf
        omega) (numSafe_tailM tl rest)
      rw [hV]
      dsimp only
      match tl, hnk, htl, hdis with
      | .nil, hnk, _, hdis =>
        rw [show skipWs (encTailMembers JsonObj.nil ++ 125 :: rest)
            = 125 :: rest from rfl]
        dsimp only
        rw [if_neg (by omega), if_pos rfl]
        rw [objInsert_disjoint hacck v]
      | .cons k2 v2 tl2, hnk, htl, hdis =>
        rw [show encTailMembers (JsonObj.cons k2 v2 tl2) ++ 125 :: rest
            = 44 :: (encStr k2 ++ 58 :: (encVal v2
                ++ (encTailMembers tl2 ++ 125 :: rest))) from by
          simp [encTailMembers, List.append_assoc]]
        rw [skipWs_notWs (show isJWs 44 = false from rfl)]
        dsimp only
        rw [if_pos rfl]
        have hd : (!objHasKey acc k
            && objKeysDisjointB acc (JsonObj.cons k2 v2 tl2)) = true := hdis
        simp only [Bool.and_eq_true] at hd
        have hdis2 : objKeysDisjointB (objInsert acc k v)
            (JsonObj.cons k2 v2 tl2) = true :=
          objKeysDisjointB_objInsert v hd.2 hnk
        obtain ⟨c, t, hct, _, _, _⟩ := encVal_head hv
        have hlen : (encVal v).length = t.length + 1 := by
          rw [hct]
          rfl
        have hM := ihM (objInsert acc k v) k2 v2 tl2 rest htl hdis2 (by
          simp only [encTailMembers, encStr, List.length_cons,
            List.length_append, List.length_singleton] at hf ⊢
          omega) hrest
        rw [hM]
        rw [objInsert_disjoint hacck v, objAppend_cons_mid]

theorem jsonParse_wf {bs : List Nat} {v : Json} (h : jsonParse bs = some v) :
    wfV v := by
  simp only [jsonParse] at h
  rcases hpv : parseVal (bs.length + 1) bs with _ | ⟨⟨v0, rest⟩⟩ <;>
    rw [hpv] at h
  · exact Option.noConfusion h
  · dsimp only at h
    by_cases hsw : skipWs rest = []
    · rw [if_pos hsw] at h
      cases h
      exact (parse_wf (bs.length + 1)).1 bs v rest hpv
    · rw [if_neg hsw] at h
      exact Option.noConfusion h

theorem jsonParse_enc {v : Json} (hv : wfV v) :
    jsonParse (encVal v) = some v := by
  have h := (parse_enc ((encVal v).length + 1)).1 v [] hv (by omega) trivial
  rw [List.append_nil] at h
  simp [jsonParse, h, skipWs]

/-- C9: when the token in the request path decodes to a JSON object whose
metadata entry is the mapping m, re-encoding m with the json.dumps model
(compact separators, ensure_ascii escaping) and parsing the result with
the json.loads model yields exactly the mapping m again: the decode/encode
round trip preserves the metadata object. -/
theorem c9_metadata_roundtrip (path : String) (m : JsonObj)
    (h : decodeInfo path = some (Json.obj m)) :
    jsonParse (encVal (Json.obj m)) = some (Json.obj m) := by
  apply jsonParse_enc
  simp only [decodeInfo] at h
  rcases hb : urlsafeB64Decode (padToken (tokenOf path)) with _ | bytes <;>
    rw [hb] at h
  · exact Option.noConfusion h
  dsimp only at h
  rcases hj : jsonParse bytes with _ | v0 <;> rw [hj] at h
  · exact Option.noConfusion h
  match v0, hj, h with
  | Json.null, hj, h => exact Option.noConfusion h
  | Json.bool b, hj, h => exact Option.noConfusion h
  | Json.num lex, hj, h => exact Option.noConfusion h
  | Json.str s, hj, h => exact Option.noConfusion h
  | Json.arr xs, hj, h => exact Option.noConfusion h
  | Json.obj kvs, hj, h =>
    dsimp only at h
    have hwf0 : wfV (Json.obj kvs) := jsonParse_wf hj
    rcases hlk : objLookup kvs (strBytes "metadata") with _ | w <;>
      rw [hlk] at h
    · dsimp only [Option.getD] at h
      cases h
      exact trivial
    · dsimp only [Option.getD] at h
      cases h
      exact objLookup_wf hwf0 hlk

set_option maxRecDepth 20000 in
theorem c9_metadata_roundtrip_witness :
    decodeInfo "eyJtZXRhZGF0YSI6eyJzaGVldCI6Ik5ld1RhYiJ9fQ"
      = some (Json.obj (JsonObj.cons (strBytes "sheet")
          (Json.str (strBytes "NewTab")) JsonObj.nil))
    ∧ jsonParse (encVal (Json.obj (JsonObj.cons (strBytes "sheet")
          (Json.str (strBytes "NewTab")) JsonObj.nil)))
      = some (Json.obj (JsonObj.cons (strBytes "sheet")
          (Json.str (strBytes "NewTab")) JsonObj.nil)) :=
  ⟨rfl, c9_metadata_roundtrip "eyJtZXRhZGF0YSI6eyJzaGVldCI6Ik5ld1RhYiJ9fQ"
    (JsonObj.cons (strBytes "sheet") (Json.str (strBytes "NewTab"))
      JsonObj.nil) rfl⟩
